import Mathlib

/-!
Verification of the knowledge-archive migration toolkit.

This file gives a shallow embedding of the two pipeline variants of the
repository — `src/ARCHIVE-TOOLKIT.py` (namespace `Toolkit`) and
`src/directive/archive_toolkit.py` (namespace `Directive`) — together with
the string utilities (Python `str.split`, `str.strip`, `str.replace`,
`json.dumps`/`json.loads` on string lists, the frontmatter-stripping
regular expression) that the code relies on.  File-system effects are
modelled by an explicit association list from path strings to file
contents; each per-record step of the organizers becomes a pure state
transition on that map.
-/

set_option maxRecDepth 100000
set_option maxHeartbeats 2000000
set_option linter.unusedVariables false

namespace ArchiveSpec

/-- Python whitespace predicate: the ASCII characters recognised by
`str.split()`, `str.strip()` and the regex class `\s`. -/
def isWS (c : Char) : Bool :=
  c == ' ' || c == '\t' || c == '\n' || c == '\r' || c == '\x0b' || c == '\x0c'

/-- `leadsWith p s` holds when the list `p` is an initial segment of `s`
(char-level counterpart of Python `str.startswith`). -/
def leadsWith : List Char → List Char → Bool
  | [], _ => true
  | _ :: _, [] => false
  | a :: as, b :: bs => a == b && leadsWith as bs

/-- Python `s.startswith(p)`. -/
def pyStartsWith (s p : String) : Bool := leadsWith p.data s.data

/-- `endsIn p s`: the list `p` is a final segment of `s`. -/
def endsIn (p s : List Char) : Bool := leadsWith p.reverse s.reverse

/-- First occurrence of the (non-empty) separator `sep` inside a character
list: `some (pre, post)` splits the list around the leftmost occurrence,
`none` means no occurrence.  This is the primitive under Python's
`str.split(sep, maxsplit)`, `str.replace` and `in`. -/
def splitFirst (sep : List Char) : List Char → Option (List Char × List Char)
  | [] => none
  | c :: cs =>
    if leadsWith sep (c :: cs) then some ([], (c :: cs).drop sep.length)
    else (splitFirst sep cs).map (fun pr => (c :: pr.1, pr.2))

/-- Python `sub in s` for a non-empty needle `sub`. -/
def strContains (s sub : String) : Bool := (splitFirst sub.data s.data).isSome

/-- Python `s.split(sep, 2)` for a non-empty separator: at most three parts,
splitting at the two leftmost non-overlapping occurrences. -/
def pySplit2 (sep s : String) : List String :=
  match splitFirst sep.data s.data with
  | none => [s]
  | some (a, r) =>
    match splitFirst sep.data r with
    | none => [⟨a⟩, ⟨r⟩]
    | some (b, c) => [⟨a⟩, ⟨b⟩, ⟨c⟩]

/-- Python `s.replace(old, new)` (all non-overlapping occurrences, scanning
left to right), for a non-empty `old`, at the character-list level; the
fuel argument only bounds the recursion and is never exhausted when it
starts at the length of the scanned list, since each occurrence consumes
at least one character. -/
def replaceFuel (pat rep : List Char) : Nat → List Char → List Char
  | 0, s => s
  | n + 1, s =>
    match splitFirst pat s with
    | none => s
    | some (pre, post) => pre ++ rep ++ replaceFuel pat rep n post

/-- Python `s.replace(old, new)` for a non-empty `old`. -/
def pyReplace (s pat rep : String) : String :=
  ⟨replaceFuel pat.data rep.data s.data.length s.data⟩

/-- Left strip (Python `str.lstrip()` over ASCII whitespace). -/
def stripLCh (l : List Char) : List Char := l.dropWhile isWS

/-- Right strip. -/
def stripRCh (l : List Char) : List Char := (l.reverse.dropWhile isWS).reverse

/-- Python `s.strip()`. -/
def pyStrip (s : String) : String := ⟨stripRCh (stripLCh s.data)⟩

/-- Python `s.lower()` (ASCII; `str.lower` additionally lowers non-ASCII
letters, which no input of this code base contains). -/
def pyLower (s : String) : String := ⟨s.data.map Char.toLower⟩

/-- Tokeniser behind Python `s.split()` (no arguments): `cur` is the
current in-progress word, accumulated in reverse. -/
def wordsAux : List Char → List Char → List (List Char)
  | [], cur => if cur.isEmpty then [] else [cur.reverse]
  | c :: cs, cur =>
    if isWS c then
      (if cur.isEmpty then wordsAux cs [] else cur.reverse :: wordsAux cs [])
    else wordsAux cs (c :: cur)

/-- Python `s.split()`: maximal runs of non-whitespace characters. -/
def pyWords (s : String) : List String := (wordsAux s.data []).map fun l => ⟨l⟩

/-- `sep.join(...)` at the character level, for a one-character separator. -/
def joinWith (sep : Char) : List (List Char) → List Char
  | [] => []
  | [l] => l
  | l :: ls => l ++ sep :: joinWith sep ls

/-- Python `sep.join(parts)` for a one-character separator string. -/
def pyJoin (sep : Char) (l : List String) : String := ⟨joinWith sep (l.map String.data)⟩

/-- Python `s.split(sep)` for a one-character separator (keeps empty parts). -/
def splitCh (sep : Char) : List Char → List (List Char)
  | [] => [[]]
  | c :: cs => if c == sep then [] :: splitCh sep cs else (splitCh sep cs).modifyHead (c :: ·)

/-- String-level `s.split(sep)` for a one-character separator. -/
def pySplitChar (sep : Char) (s : String) : List String := (splitCh sep s.data).map fun l => ⟨l⟩

/-- Scanner for `re.sub(r'#+\s', '', text)`: `n` counts the hash marks of
the run currently being read (`0` when outside a run).  A run followed by
one whitespace character is dropped with that character, any other run is
emitted verbatim — the regex cannot match starting inside a `#`-run that
is not followed by whitespace. -/
def hashScan : Nat → List Char → List Char
  | n, [] => List.replicate n '#'
  | n, c :: cs =>
    if c == '#' then hashScan (n + 1) cs
    else if n == 0 then c :: hashScan 0 cs
    else if isWS c then hashScan 0 cs
    else List.replicate n '#' ++ (c :: hashScan 0 cs)

/-- `re.sub(r'#+\s', '', text)` (directive `extract_snippet`, line 69). -/
def subHashWs (l : List Char) : List Char := hashScan 0 l

/-- The frontmatter closing delimiter of the regex `^---\n.*?\n---\n`. -/
def fmDelim : List Char := ['\n', '-', '-', '-', '\n']

/-- `re.sub(r'^---\n.*?\n---\n', '', content, flags=re.DOTALL)`: if the text
starts with `---\n`, remove everything up to and including the earliest
subsequent `\n---\n`; otherwise (or when no such delimiter follows) leave
the text unchanged.  Shared by `extract_snippet` and `organize_archive` in
`src/ARCHIVE-TOOLKIT.py`. -/
def stripFM (s : String) : String :=
  if pyStartsWith s "---\n" then
    match splitFirst fmDelim (s.data.drop 4) with
    | some pr => ⟨pr.2⟩
    | none => s
  else s

/-- One character of a JSON string literal as serialised by `json.dumps`
(modelled for text without exotic control characters or non-ASCII input,
which `json.dumps` would additionally escape). -/
def escCh (c : Char) : List Char :=
  if c == '"' then ['\\', '"']
  else if c == '\\' then ['\\', '\\']
  else if c == '\n' then ['\\', 'n']
  else if c == '\t' then ['\\', 't']
  else if c == '\r' then ['\\', 'r']
  else [c]

/-- A JSON string literal `"…"` for one element. -/
def jsonQuote (w : List Char) : List Char := '"' :: (w.map escCh).flatten ++ ['"']

/-- Body of a JSON array of strings, separated by `", "` exactly as
`json.dumps` prints it. -/
def jsonArrBody : List (List Char) → List Char
  | [] => []
  | [w] => jsonQuote w
  | w :: ws => jsonQuote w ++ ',' :: ' ' :: jsonArrBody ws

/-- `json.dumps(list_of_strings)`. -/
def jsonDumps (l : List String) : String :=
  ⟨'[' :: jsonArrBody (l.map String.data) ++ [']']⟩

/-- State machine behind `json.loads` restricted to arrays of strings in the
canonical layout produced by `json.dumps` (state 0: expecting an opening
quote; 1: inside a string; 2: inside a string after a backslash; 3: after a
closing quote; 4: after a comma, expecting the single separating space). -/
def jsonArrAux : List Char → Nat → List Char → List String → Option (List String)
  | [], _, _, _ => none
  | c :: rest, st, cur, acc =>
    if st == 0 then
      (if c == '"' then jsonArrAux rest 1 [] acc else none)
    else if st == 1 then
      if c == '"' then jsonArrAux rest 3 [] (⟨cur.reverse⟩ :: acc)
      else if c == '\\' then jsonArrAux rest 2 cur acc
      else jsonArrAux rest 1 (c :: cur) acc
    else if st == 2 then
      jsonArrAux rest 1
        ((if c == 'n' then '\n' else if c == 't' then '\t' else if c == 'r' then '\r' else c) :: cur)
        acc
    else if st == 3 then
      if c == ']' then (if rest.isEmpty then some acc.reverse else none)
      else if c == ',' then jsonArrAux rest 4 [] acc
      else none
    else
      (if c == ' ' then jsonArrAux rest 0 [] acc else none)

/-- `json.loads` restricted to arrays of strings in the canonical
`json.dumps` layout; `none` models a raised `ValueError`. -/
def jsonLoadsList (s : String) : Option (List String) :=
  match s.data with
  | ['[', ']'] => some []
  | '[' :: rest => jsonArrAux rest 0 [] []
  | _ => none

/-- The character text of the file written by the directive organizer
between its two `---` delimiters: the frontmatter key lines of
`fileContent`, each preceded by the newline placed by the join, ending
with the newline before the closing delimiter. -/
def headerFM (Dm Sm today : String) (TL : List String) : List Char :=
  '\n' :: (("patterndomain: ".data ++ Dm.data) ++ ('\n' :: (("maturationstage: ".data ++ Sm.data) ++ ('\n' :: (("patterntags: ".data ++ (jsonDumps TL).data) ++ ('\n' :: ("validationstatus: singleobservation".data ++ ('\n' :: ("instructionalreadiness: internalreference".data ++ ('\n' :: ("temporal_context:".data ++ ('\n' :: ("  experience_date: ''".data ++ ('\n' :: (("  analysis_date: ".data ++ today.data) ++ ('\n' :: ("provenance: personaldocumentation".data ++ ('\n' :: ("source: notebooklm".data ++ ('\n' :: (("import_date: ".data ++ today.data) ++ ('\n' :: ([] : List Char)))))))))))))))))))))))

/-- Python `[t.strip() for t in s.split(sep) if t.strip()]` — the tag/link
list parser used with `';'` by `ARCHIVE-TOOLKIT.py` and with `','` by the
directive variant. -/
def splitStripList (sep : Char) (s : String) : List String :=
  ((pySplitChar sep s).map pyStrip).filter (fun t => t ≠ "")

/-- The file system visible to the toolkit: a finite map from path strings
(relative to the working directory) to file contents.  Directories are not
tracked; `mkdir(parents=True, exist_ok=True)` is a no-op in this model. -/
def FS : Type := List (String × String)

/-- Does a file exist at `p` (Python `Path.exists()` for regular files)? -/
def FS.read (fs : FS) (p : String) : Option String :=
  (List.find? (fun kv => kv.1 == p) fs).map (fun kv => kv.2)

/-- `Path.exists()`. -/
def FS.haveFile (fs : FS) (p : String) : Bool := (fs.read p).isSome

/-- `open(p, 'w').write(c)`: create or overwrite. -/
def FS.write (fs : FS) (p c : String) : FS :=
  (p, c) :: fs.filter (fun kv => kv.1 != p)

/-- `os.remove(p)`. -/
def FS.remove (fs : FS) (p : String) : FS := fs.filter (fun kv => kv.1 != p)

/-- `pathlib`'s `/` on relative path fragments: empty components are
dropped, otherwise the parts are joined with a slash. -/
def pJoin (a b : String) : String :=
  if b = "" then a else if a = "" then b else a ++ "/" ++ b

namespace Toolkit

/-- One row of `classification-manifest.csv` as read back by
`csv.DictReader` in `src/ARCHIVE-TOOLKIT.py`: every column of the fixed
field list is present, possibly as the empty string. -/
structure Row where
  original_path : String
  filename : String
  suggested_domain : String
  suggested_tags : String
  maturation_stage : String
  validation_status : String
  instructional_readiness : String
  experience_date : String
  provenance : String
  source_url : String
  related_links : String
  snippet : String
  status : String
deriving DecidableEq

/-- Per-record log line printed by `organize_archive`. -/
inductive Log where
  | skippedMissing (original_path : String)
  | moved (filename dest : String)
deriving DecidableEq

/-- The `stage_map` dict lookup with default `"experiential_data"`
(`ARCHIVE-TOOLKIT.py` lines 172–176 and 194). -/
def stageFolder (stage : String) : String :=
  if stage = "experientialdata" then "experiential_data"
  else if stage = "analyticalsynthesis" then "analytical_synthesis"
  else if stage = "formalizedframework" then "formalized_frameworks"
  else "experiential_data"

/-- `re.sub(r'[^a-z0-9-]', '', filename.lower().replace('.md', '').replace(' ', '-'))`
(line 199). -/
def slugify (filename : String) : String :=
  let s := pyReplace (pyReplace (pyLower filename) ".md" "") " " "-"
  ⟨s.data.filter (fun c => c.isLower || c.isDigit || c == '-')⟩

/-- Source path of a row: `ROOT_DIR / row["original_path"]`, with `ROOT_DIR`
taken as the empty relative prefix. -/
def srcPath (row : Row) : String := row.original_path

/-- Destination directory + filename (lines 193–202):
`knowledge-archive/<domain>/<stage_folder>/<domain>-<slug>-<date>.md`,
joined with `pathlib` semantics (an empty domain component vanishes). -/
def destPath (row : Row) (today : String) : String :=
  let domain := row.suggested_domain
  let stage_folder := stageFolder row.maturation_stage
  let new_filename := domain ++ "-" ++ slugify row.filename ++ "-" ++ today ++ ".md"
  pJoin (pJoin (pJoin "knowledge-archive" domain) stage_folder) new_filename

/-- The YAML frontmatter f-string of `organize_archive`
(`ARCHIVE-TOOLKIT.py` lines 205–221), including the trailing blank line. -/
def frontmatter (row : Row) (today : String) : String :=
  let tags := splitStripList ';' row.suggested_tags
  let links := splitStripList ';' row.related_links
  "---\npatterndomain: " ++ row.suggested_domain ++
  "\nmaturationstage: " ++ row.maturation_stage ++
  "\npatterntags: " ++ jsonDumps tags ++
  "\nvalidationstatus: " ++ row.validation_status ++
  "\ninstructionalreadiness: " ++ row.instructional_readiness ++
  "\ntemporal_context:\n  experience_date: " ++ row.experience_date ++
  "\n  analysis_date: " ++ today ++
  "\nprovenance: " ++ row.provenance ++
  "\nsource: \"notebooklm\"\nsource_url: \"" ++ row.source_url ++
  "\"\nrelated_links: " ++ jsonDumps links ++
  "\nimport_date: " ++ today ++ "\n---\n\n"

/-- One iteration of the `for row in rows` loop of `organize_archive`
(`ARCHIVE-TOOLKIT.py` lines 180–233): skip when the source file is
missing; otherwise write the new header plus the source content with its
leading frontmatter stripped to the destination, then delete the source.
There is no empty-domain check in this variant. -/
def processRow (today : String) (fs : FS) (row : Row) : FS × Log :=
  if fs.haveFile (srcPath row) = false then
    (fs, Log.skippedMissing row.original_path)
  else
    let content := (fs.read (srcPath row)).getD ""
    let body := stripFM content
    let target := destPath row today
    let fs := fs.write target (frontmatter row today ++ body)
    let fs := fs.remove (srcPath row)
    (fs, Log.moved row.filename target)

/-- The whole `organize_archive` pass over the manifest rows, threading the
file system, counting successes, and recording one log entry per row. -/
def organize (today : String) (fs : FS) : List Row → FS × Nat × List Log
  | [] => (fs, 0, [])
  | row :: rows =>
    let step := processRow today fs row
    let rest := organize today step.1 rows
    (rest.1,
     (match step.2 with
      | Log.moved _ _ => rest.2.1 + 1
      | _ => rest.2.1),
     step.2 :: rest.2.2)

/-- A taxonomy JSON file for `validate_manifest`: either a list of bare id
strings or a list of `id`/`description` records (both shapes accepted,
`ARCHIVE-TOOLKIT.py` lines 255–271). -/
inductive TaxonomyFile where
  | ids (l : List String)
  | recs (l : List (String × String))
deriving DecidableEq

/-- The id set extracted from a taxonomy file. -/
def taxIds : TaxonomyFile → List String
  | TaxonomyFile.ids l => l
  | TaxonomyFile.recs l => l.map Prod.fst

/-- A validation issue; the source renders these as strings that also echo
the sorted valid vocabulary, which is presentation and not modelled. -/
inductive Issue where
  | invalidDomain (filename domain : String)
  | invalidTag (filename tag : String)
deriving DecidableEq

/-- Issues produced for one manifest row (`ARCHIVE-TOOLKIT.py` lines
281–291): a non-empty domain outside the valid set, then each parsed tag
outside the valid set, in row order. -/
def rowIssues (valid_domains valid_tags : List String) (row : Row) : List Issue :=
  let tags := splitStripList ';' row.suggested_tags
  (if row.suggested_domain ≠ "" ∧ row.suggested_domain ∉ valid_domains then
     [Issue.invalidDomain row.filename row.suggested_domain]
   else []) ++
  tags.filterMap (fun t =>
    if t ∉ valid_tags then some (Issue.invalidTag row.filename t) else none)

/-- `validate_manifest` (lines 240–300) as a function of the manifest rows
and the two taxonomy files. -/
def validate_manifest (rows : List Row) (domains tags : TaxonomyFile) : List Issue :=
  ((rows.map (rowIssues (taxIds domains) (taxIds tags))).flatten)

/-- `extract_snippet` from `src/ARCHIVE-TOOLKIT.py` (lines 63–74): strip a
leading `---`-delimited frontmatter block, then join the first
`word_count` whitespace-delimited words with single spaces.  No ellipsis
is ever appended by this variant. -/
def extract_snippet (content : String) (word_count : Nat) : String :=
  let content := stripFM content
  pyJoin ' ' ((pyWords content).take word_count)

/-- `suggest_metadata` from `src/ARCHIVE-TOOLKIT.py` (lines 76–97).  The
returned triple is `(domain, ";".join(tags), stage)`; the `filename`
parameter is accepted but never read by the source. -/
def suggest_metadata (content filename : String) : String × String × String :=
  let lower := (pyLower content)
  let stage :=
    if strContains lower "doctrine" then "formalizedframework" else "experientialdata"
  if strContains lower "code" || strContains lower "function" || strContains lower "def " then
    ("tradecraft", "code-snippet", stage)
  else if strContains lower "journal" || strContains lower "diary" || strContains lower "felt" then
    ("forensic-psychology", "reflection", stage)
  else
    ("social-engineering", "", stage)

end Toolkit

namespace Directive

/-- One row of the manifest as read by the directive variant
(`src/directive/archive_toolkit.py`): the columns written by its
`generate_manifest`. -/
structure DRow where
  filepath : String
  filename : String
  pattern_domain : String
  pattern_tags : String
  maturation_stage : String
  snippet : String
deriving DecidableEq

/-- Per-record log line printed by the directive `organize_archive`. -/
inductive DLog where
  | skipNoDomain (filename : String)
  | warnMissing (src : String)
  | moved (srcName dest : String)
deriving DecidableEq

/-- Source path: `STAGING_DIR / row['filepath']` with
`STAGING_DIR = notebooklm-import-raw`. -/
def srcPath (row : DRow) : String := pJoin "notebooklm-import-raw" row.filepath

/-- Normalised domain (line 154):
`row['pattern_domain'].strip().lower().replace(" ", "-")`. -/
def normDomain (d : String) : String :=
  ⟨((pyLower (pyStrip d)).data.map (fun c => if c == ' ' then '-' else c))⟩

/-- Stage label cleaned for folder lookup (line 156):
`raw_stage.lower().replace(" ", "").replace("-", "")`. -/
def cleanStage (raw_stage : String) : String :=
  ⟨(pyLower raw_stage).data.filter (fun c => c != ' ' && c != '-')⟩

/-- The directive `stage_map` (lines 159–165), with the extra `"raw"` key
and default `"experiential_data"`. -/
def stageFolder (clean_stage : String) : String :=
  if clean_stage = "experientialdata" then "experiential_data"
  else if clean_stage = "analyticalsynthesis" then "analytical_synthesis"
  else if clean_stage = "formalizedframework" then "formalized_frameworks"
  else if clean_stage = "raw" then "experiential_data"
  else "experiential_data"

/-- `pathlib.Path(name).stem`: the name without its final suffix; a dot at
position zero or a trailing dot does not start a suffix. -/
def pyStem (name : String) : String :=
  match (splitCh '.' name.data).reverse with
  | [] => name
  | last :: restRev =>
    if restRev.isEmpty then name
    else if last.isEmpty then name
    else if restRev.reverse.head? = some [] ∧ restRev.length = 1 then name
    else ⟨joinWith '.' restRev.reverse⟩

/-- Destination filename (lines 171–173): keep a `.md` name, otherwise
replace the suffix with `.md`. -/
def destName (filename : String) : String :=
  if endsIn ".md".data filename.data then filename else pyStem filename ++ ".md"

/-- Destination path `archive/<domain>/<stage_folder>/<dest_filename>`. -/
def destPath (row : DRow) : String :=
  pJoin (pJoin (pJoin "archive" (normDomain row.pattern_domain))
      (stageFolder (cleanStage (pyStrip row.maturation_stage))))
    (destName row.filename)

/-- The `patterntags` header value (lines 186–190): an already-bracketed
field is passed through verbatim, an empty field becomes `[]`, anything
else is comma-split, stripped, filtered and re-serialised by
`json.dumps`. -/
def renderTags (pattern_tags : String) : String :=
  if pattern_tags ≠ "" ∧ pyStartsWith pattern_tags "[" = false then
    jsonDumps (splitStripList ',' pattern_tags)
  else if pattern_tags = "" then "[]"
  else pattern_tags

/-- The file written by the directive organizer:
`"\n".join(frontmatter_lines)` where the final list elements are `"---"`,
`""` and the raw source content (lines 192–213).  Note that the source
content is appended verbatim — no pre-existing header is stripped. -/
def fileContent (row : DRow) (today content : String) : String :=
  "---\npatterndomain: " ++ normDomain row.pattern_domain ++
  "\nmaturationstage: " ++ pyStrip row.maturation_stage ++
  "\npatterntags: " ++ renderTags row.pattern_tags ++
  "\nvalidationstatus: singleobservation" ++
  "\ninstructionalreadiness: internalreference" ++
  "\ntemporal_context:\n  experience_date: ''" ++
  "\n  analysis_date: " ++ today ++
  "\nprovenance: personaldocumentation" ++
  "\nsource: notebooklm" ++
  "\nimport_date: " ++ today ++
  "\n---\n\n" ++ content

/-- One iteration of the manifest loop of the directive `organize_archive`
(lines 141–216): skip when the domain is empty, warn and skip when the
source file is missing, otherwise write header plus verbatim content to
the destination.  The source file is never removed by this variant. -/
def processRow (today : String) (fs : FS) (row : DRow) : FS × DLog :=
  if row.pattern_domain = "" then (fs, DLog.skipNoDomain row.filename)
  else if fs.haveFile (srcPath row) = false then (fs, DLog.warnMissing (srcPath row))
  else
    let content := (fs.read (srcPath row)).getD ""
    (fs.write (destPath row) (fileContent row today content),
     DLog.moved row.filename (destPath row))

/-- The whole directive `organize_archive` pass over the manifest rows. -/
def organize (today : String) (fs : FS) : List DRow → FS × List DLog
  | [] => (fs, [])
  | row :: rows =>
    let step := processRow today fs row
    let rest := organize today step.1 rows
    (rest.1, step.2 :: rest.2)

/-- The text after the first colon of a line, `line.split(":", 1)[1]`
(used only on lines known to contain a colon). -/
def afterColon (line : String) : String :=
  match splitFirst [':'] line.data with
  | some pr => ⟨pr.2⟩
  | none => ""

/-- One line of the frontmatter scan of `report_statistics`
(`src/directive/archive_toolkit.py` lines 367–378): strip the line, then
assign domain / stage / tags on a `key:` prefix match, decoding the tag
value with `json.loads` and ignoring a decode failure. -/
def statLine (st : String × String × List String) (line : String) :
    String × String × List String :=
  let line := pyStrip line
  if pyStartsWith line "patterndomain:" then
    (pyStrip (afterColon line), st.2.1, st.2.2)
  else if pyStartsWith line "maturationstage:" then
    (st.1, pyStrip (afterColon line), st.2.2)
  else if pyStartsWith line "patterntags:" then
    match jsonLoadsList (pyStrip (afterColon line)) with
    | some l => (st.1, st.2.1, l)
    | none => st
  else st

/-- The per-file frontmatter extraction of `report_statistics` (lines
359–378): defaults `("unknown", "unknown", [])`; when the content starts
with `---` and `content.split("---", 2)` yields at least two parts, scan
the lines of the part between the first two delimiters. -/
def parseStats (content : String) : String × String × List String :=
  let dflt : String × String × List String := ("unknown", "unknown", [])
  if pyStartsWith content "---" then
    match pySplit2 "---" content with
    | _ :: fm :: _ => (pySplitChar '\n' fm).foldl statLine dflt
    | _ => dflt
  else dflt

/-- The cleanup pipeline at the start of `extract_snippet` in
`src/directive/archive_toolkit.py` (lines 52–69): `text.strip()`, the
`text.split("---", 2)` frontmatter skip guarded by `startswith("---")`
(where fewer than three parts raises `ValueError`, caught and ignored),
and `re.sub(r'#+\s', '', text)`. -/
def cleanedText (text : String) : String :=
  let text := pyStrip text
  let text :=
    if pyStartsWith text "---" then
      match pySplit2 "---" text with
      | [_, _, content] => pyStrip content
      | _ => text
    else text
  ⟨subHashWs text.data⟩

/-- `extract_snippet` from `src/directive/archive_toolkit.py` (lines 52–76):
after the cleanup, the first `word_count` words joined by single spaces,
with `"..."` appended exactly when more than `word_count` words remained. -/
def extract_snippet (text : String) (word_count : Nat) : String :=
  let text := cleanedText text
  let words := pyWords text
  let snippet := pyJoin ' ' (words.take word_count)
  if word_count < words.length then snippet ++ "..." else snippet

end Directive

/-- Spec-side reading of the snippet contract: the first `wc`
whitespace-delimited tokens joined with single spaces, with an ellipsis
marker appended exactly when the token list was truncated. -/
def snippetSpec (tokens : List String) (wc : Nat) : String :=
  pyJoin ' ' (tokens.take wc) ++ (if wc < tokens.length then "..." else "")

/- ------------------------------------------------------------------ -/
/- Theorems.  General-purpose lemmas first, then one theorem (plus     -/
/- witness / counterexample) per claim.                                -/
/- ------------------------------------------------------------------ -/

/-- Two strings with the same character list are equal. -/
theorem strExt {a b : String} (h : a.data = b.data) : a = b := by
  cases a; cases b; exact congrArg String.mk h

theorem str_data_append (a b : String) : (a ++ b).data = a.data ++ b.data := rfl

theorem str_append_empty (a : String) : a ++ "" = a :=
  strExt (by simp [str_data_append])

/-- Every word produced by the tokenizer is non-empty and free of
whitespace characters. -/
theorem wordsAux_clean (s : List Char) :
    ∀ (cur : List Char), (∀ c ∈ cur, isWS c = false) →
      ∀ w ∈ wordsAux s cur, w ≠ [] ∧ ∀ c ∈ w, isWS c = false := by
  induction s with
  | nil =>
    intro cur hcur w hw
    rw [wordsAux] at hw
    cases cur with
    | nil => simp at hw
    | cons c cs =>
      simp only [List.isEmpty_cons, if_neg] at hw
      simp only [Bool.false_eq_true, if_false, List.mem_singleton] at hw
      subst hw
      refine ⟨by simp, ?_⟩
      intro c' hc'
      exact hcur c' (List.mem_reverse.mp hc')
  | cons c cs ih =>
    intro cur hcur w hw
    rw [wordsAux] at hw
    by_cases hws : isWS c = true
    · rw [if_pos hws] at hw
      cases cur with
      | nil =>
        simp only [List.isEmpty_nil, if_pos] at hw
        exact ih [] (by simp) w hw
      | cons d ds =>
        simp only [List.isEmpty_cons, Bool.false_eq_true, if_false, List.mem_cons] at hw
        rcases hw with hw | hw
        · subst hw
          refine ⟨by simp, ?_⟩
          intro c' hc'
          exact hcur c' (List.mem_reverse.mp hc')
        · exact ih [] (by simp) w hw
    · rw [if_neg hws] at hw
      refine ih (c :: cur) ?_ w hw
      intro c' hc'
      rcases List.mem_cons.mp hc' with h | h
      · subst h; simpa using hws
      · exact hcur c' h

/-- Feeding a whitespace-free chunk into the tokenizer just extends the
current word. -/
theorem wordsAux_chunk (w : List Char) :
    ∀ (s cur : List Char), (∀ c ∈ w, isWS c = false) →
      wordsAux (w ++ s) cur = wordsAux s (w.reverse ++ cur) := by
  induction w with
  | nil => intro s cur _; simp
  | cons c w' ih =>
    intro s cur hw
    have hc : isWS c = false := hw c (by simp)
    simp only [List.cons_append, wordsAux, hc, Bool.false_eq_true, if_false, List.append_eq]
    rw [ih s (c :: cur) (fun d hd => hw d (by simp [hd]))]
    congr 1
    simp

/-- Tokenising a single-space join of non-empty whitespace-free words
recovers exactly those words. -/
theorem words_of_join (ws : List (List Char))
    (h : ∀ w ∈ ws, w ≠ [] ∧ ∀ c ∈ w, isWS c = false) :
    wordsAux (joinWith ' ' ws) [] = ws := by
  induction ws with
  | nil => simp [joinWith, wordsAux]
  | cons w ws' ih =>
    cases ws' with
    | nil =>
      obtain ⟨hne, hcl⟩ := h w (by simp)
      have h1 : wordsAux (w ++ []) [] = wordsAux [] (w.reverse ++ []) :=
        wordsAux_chunk w [] [] hcl
      simp only [List.append_nil] at h1
      rw [show joinWith ' ' [w] = w from rfl, h1, wordsAux]
      have : w.reverse.isEmpty = false := by
        cases w with
        | nil => exact absurd rfl hne
        | cons a as => simp
      simp [this]
    | cons v vs =>
      obtain ⟨hne, hcl⟩ := h w (by simp)
      have hrest : ∀ u ∈ v :: vs, u ≠ [] ∧ ∀ c ∈ u, isWS c = false := by
        intro u hu; exact h u (by simp [hu])
      have h1 : wordsAux (w ++ (' ' :: joinWith ' ' (v :: vs))) []
          = wordsAux (' ' :: joinWith ' ' (v :: vs)) (w.reverse ++ []) :=
        wordsAux_chunk w (' ' :: joinWith ' ' (v :: vs)) [] hcl
      rw [show joinWith ' ' (w :: v :: vs) = w ++ ' ' :: joinWith ' ' (v :: vs) from rfl, h1]
      simp only [List.append_nil, wordsAux, show isWS ' ' = true from rfl, if_pos]
      have hwne : w.reverse.isEmpty = false := by
        cases w with
        | nil => exact absurd rfl hne
        | cons a as => simp
      simp only [hwne, Bool.false_eq_true, if_false, List.reverse_reverse]
      rw [ih hrest]

/-- Appending a non-empty whitespace-free marker to a single-space join
does not change the number of tokens (it glues onto the last word), except
that it creates one token when the join was empty. -/
theorem words_of_join_marker (ws : List (List Char)) (d : List Char)
    (h : ∀ w ∈ ws, w ≠ [] ∧ ∀ c ∈ w, isWS c = false)
    (hd : d ≠ []) (hdc : ∀ c ∈ d, isWS c = false) :
    (wordsAux (joinWith ' ' ws ++ d) []).length = if ws.isEmpty then 1 else ws.length := by
  induction ws with
  | nil =>
    have h1 : wordsAux (d ++ []) [] = wordsAux [] (d.reverse ++ []) :=
      wordsAux_chunk d [] [] hdc
    simp only [List.append_nil] at h1
    rw [show joinWith ' ' [] ++ d = d from by simp [joinWith], h1, wordsAux]
    have : d.reverse.isEmpty = false := by
      cases d with
      | nil => exact absurd rfl hd
      | cons a as => simp
    simp [this]
  | cons w ws' ih =>
    cases ws' with
    | nil =>
      obtain ⟨hne, hcl⟩ := h w (by simp)
      have hcl2 : ∀ c ∈ w ++ d, isWS c = false := by
        intro c hc
        rcases List.mem_append.mp hc with h' | h'
        · exact hcl c h'
        · exact hdc c h'
      have h1 : wordsAux ((w ++ d) ++ []) [] = wordsAux [] ((w ++ d).reverse ++ []) :=
        wordsAux_chunk (w ++ d) [] [] hcl2
      simp only [List.append_nil] at h1
      rw [show joinWith ' ' [w] ++ d = w ++ d from rfl, h1, wordsAux]
      have hwd : (w ++ d).reverse.isEmpty = false := by
        cases hwd : w ++ d with
        | nil => exact absurd (List.append_eq_nil.mp hwd).1 hne
        | cons a as => simp
      rw [hwd]
      simp
    | cons v vs =>
      obtain ⟨hne, hcl⟩ := h w (by simp)
      have hrest : ∀ u ∈ v :: vs, u ≠ [] ∧ ∀ c ∈ u, isWS c = false := by
        intro u hu; exact h u (by simp [hu])
      have h1 : wordsAux (w ++ (' ' :: (joinWith ' ' (v :: vs) ++ d))) []
          = wordsAux (' ' :: (joinWith ' ' (v :: vs) ++ d)) (w.reverse ++ []) :=
        wordsAux_chunk w (' ' :: (joinWith ' ' (v :: vs) ++ d)) [] hcl
      have h0 : joinWith ' ' (w :: v :: vs) ++ d
          = w ++ (' ' :: (joinWith ' ' (v :: vs) ++ d)) := by
        rw [show joinWith ' ' (w :: v :: vs) = w ++ ' ' :: joinWith ' ' (v :: vs) from rfl]
        simp
      rw [h0, h1]
      simp only [List.append_nil, wordsAux, show isWS ' ' = true from rfl, if_pos]
      have hwne : w.reverse.isEmpty = false := by
        cases w with
        | nil => exact absurd rfl hne
        | cons a as => simp
      simp only [hwne, Bool.false_eq_true, if_false]
      have := ih hrest
      simp only [List.isEmpty_cons, Bool.false_eq_true, if_false] at this ⊢
      simp [this]

theorem pyWords_data (s : String) : (pyWords s).map String.data = wordsAux s.data [] := by
  rw [pyWords, List.map_map]
  exact List.map_id _

theorem pyJoin_data (sep : Char) (l : List String) :
    (pyJoin sep l).data = joinWith sep (l.map String.data) := rfl

/-- Tokens of the words of any string are non-empty and whitespace-free. -/
theorem pyWords_clean (s : String) :
    ∀ w ∈ (pyWords s).map String.data, w ≠ [] ∧ ∀ c ∈ w, isWS c = false := by
  intro w hw
  rw [pyWords_data] at hw
  exact wordsAux_clean s.data [] (by simp) w hw

/-- Token count of the ARCHIVE-TOOLKIT snippet: exactly the number of
words kept, hence never more than `word_count`. -/
theorem toolkit_snippet_tokens (content : String) (wc : Nat) :
    (pyWords (Toolkit.extract_snippet content wc)).length ≤ wc := by
  rw [Toolkit.extract_snippet]
  set L := pyWords (stripFM content) with hL
  have hclean : ∀ w ∈ (L.take wc).map String.data, w ≠ [] ∧ ∀ c ∈ w, isWS c = false := by
    intro w hw
    rcases List.mem_map.mp hw with ⟨t, ht, rfl⟩
    exact pyWords_clean (stripFM content) t.data
      (List.mem_map.mpr ⟨t, List.take_subset wc L ht, rfl⟩)
  have hjoin : wordsAux (joinWith ' ' ((L.take wc).map String.data)) []
      = (L.take wc).map String.data := words_of_join _ hclean
  have hlen : (pyWords (pyJoin ' ' (L.take wc))).length
      = ((L.take wc).map String.data).length := by
    have := congrArg List.length (pyWords_data (pyJoin ' ' (L.take wc)))
    rw [pyJoin_data, hjoin] at this
    simpa using this
  rw [hlen]
  simp [List.length_take]

/-- Token count of the directive snippet for positive `word_count`. -/
theorem directive_snippet_tokens (text : String) (wc : Nat) (h : 1 ≤ wc) :
    (pyWords (Directive.extract_snippet text wc)).length
      = min wc (pyWords (Directive.cleanedText text)).length := by
  set L := pyWords (Directive.cleanedText text) with hL
  have hunf : Directive.extract_snippet text wc
      = (if wc < L.length then pyJoin ' ' (L.take wc) ++ "..."
         else pyJoin ' ' (L.take wc)) := rfl
  rw [hunf]
  have hclean : ∀ w ∈ (L.take wc).map String.data, w ≠ [] ∧ ∀ c ∈ w, isWS c = false := by
    intro w hw
    rcases List.mem_map.mp hw with ⟨t, ht, rfl⟩
    exact pyWords_clean (Directive.cleanedText text) t.data
      (List.mem_map.mpr ⟨t, List.take_subset wc L ht, rfl⟩)
  by_cases htr : wc < L.length
  · rw [if_pos htr]
    have hne : ((L.take wc).map String.data).isEmpty = false := by
      have h1 : (L.take wc).length = wc := by
        rw [List.length_take]; omega
      have hlen : ((L.take wc).map String.data).length = wc := by simpa using h1
      cases hmt : (L.take wc).map String.data with
      | nil => rw [hmt] at hlen; simp at hlen; omega
      | cons a as => simp
    have hm := words_of_join_marker ((L.take wc).map String.data) "...".data hclean
      (by decide) (by decide)
    rw [hne] at hm
    simp only [Bool.false_eq_true, if_false] at hm
    have hdata : (pyJoin ' ' (L.take wc) ++ "...").data
        = joinWith ' ' ((L.take wc).map String.data) ++ "...".data := by
      rw [str_data_append, pyJoin_data]
    have hlen := congrArg List.length (pyWords_data (pyJoin ' ' (L.take wc) ++ "..."))
    rw [hdata, hm] at hlen
    have hfin : (pyWords (pyJoin ' ' (L.take wc) ++ "...")).length
        = ((L.take wc).map String.data).length := by simpa using hlen
    rw [hfin]
    simp [List.length_take]
  · rw [if_neg htr]
    have hjoin : wordsAux (joinWith ' ' ((L.take wc).map String.data)) []
        = (L.take wc).map String.data := words_of_join _ hclean
    have hlen := congrArg List.length (pyWords_data (pyJoin ' ' (L.take wc)))
    rw [pyJoin_data, hjoin] at hlen
    have hfin : (pyWords (pyJoin ' ' (L.take wc))).length
        = ((L.take wc).map String.data).length := by simpa using hlen
    rw [hfin]
    simp [List.length_take]

/-- Claim C5, counterexample: at `word_count = 0` on the two-word text
`"a b"` the directive `extract_snippet` returns the bare ellipsis marker
`"..."`, which is one whitespace-delimited token — more than
`word_count`.  So the claim's bound fails as universally stated. -/
theorem claim_C5_counterexample :
    Directive.extract_snippet "a b" 0 = "..." ∧
    (pyWords (Directive.extract_snippet "a b" 0)).length = 1 ∧
    ¬ (pyWords (Directive.extract_snippet "a b" 0)).length ≤ 0 := by
  refine ⟨rfl, rfl, by decide⟩

/-- Claim C5 (amended): for every text, the ARCHIVE-TOOLKIT
`extract_snippet` returns at most `word_count` whitespace-delimited
tokens for every `word_count`, and the directive variant does so for every
`word_count ≥ 1`; both are total functions of the text (no exception on a
missing header block, which in this embedding is totality by
construction). -/
theorem claim_C5 (text : String) (word_count : Nat) :
    (pyWords (Toolkit.extract_snippet text word_count)).length ≤ word_count ∧
    (1 ≤ word_count →
      (pyWords (Directive.extract_snippet text word_count)).length ≤ word_count) := by
  refine ⟨toolkit_snippet_tokens text word_count, fun h => ?_⟩
  rw [directive_snippet_tokens text word_count h]
  exact Nat.min_le_left _ _

/-- Witness for C5 at a concrete input with both conjuncts discharged. -/
theorem claim_C5_witness :
    (pyWords (Toolkit.extract_snippet "one two three" 2)).length ≤ 2 ∧
    (pyWords (Directive.extract_snippet "one two three" 2)).length ≤ 2 :=
  ⟨(claim_C5 "one two three" 2).1, (claim_C5 "one two three" 2).2 (by decide)⟩

/-- Claim C7, counterexample: the ARCHIVE-TOOLKIT `extract_snippet`
variant never appends an ellipsis marker: on `"a b"` with `word_count = 1`
truncation occurs, the claim's snippet shape demands `"a..."`, but the
code returns `"a"`. -/
theorem claim_C7_counterexample :
    Toolkit.extract_snippet "a b" 1 = "a" ∧
    snippetSpec (pyWords "a b") 1 = "a..." ∧
    ("a" : String) ≠ "a..." := by
  refine ⟨rfl, rfl, by decide⟩

/-- Claim C7 (amended): the claim's snippet shape — first `word_count`
tokens joined by single spaces, ellipsis appended iff truncated, nothing
more otherwise — holds for the directive variant, with "what remains"
being the text after frontmatter skipping *and* markdown-heading cleanup
(`re.sub(r'#+\s', '', …)`); moreover for `word_count ≥ 1` the token count
of the result is exactly `min word_count (number of remaining tokens)`.
The ARCHIVE-TOOLKIT variant never appends a marker (see the
counterexample). -/
theorem claim_C7 (text : String) (word_count : Nat) :
    Directive.extract_snippet text word_count
      = snippetSpec (pyWords (Directive.cleanedText text)) word_count ∧
    (1 ≤ word_count →
      (pyWords (Directive.extract_snippet text word_count)).length
        = min word_count (pyWords (Directive.cleanedText text)).length) := by
  constructor
  · rw [snippetSpec]
    set L := pyWords (Directive.cleanedText text) with hL
    have hunf : Directive.extract_snippet text word_count
        = (if word_count < L.length then pyJoin ' ' (L.take word_count) ++ "..."
           else pyJoin ' ' (L.take word_count)) := rfl
    rw [hunf]
    by_cases htr : word_count < L.length
    · rw [if_pos htr, if_pos htr]
    · rw [if_neg htr, if_neg htr, str_append_empty]
  · exact directive_snippet_tokens text word_count

/-- Witness for C7 at a concrete truncating input. -/
theorem claim_C7_witness :
    Directive.extract_snippet "alpha beta gamma" 2
      = snippetSpec (pyWords (Directive.cleanedText "alpha beta gamma")) 2 ∧
    (pyWords (Directive.extract_snippet "alpha beta gamma" 2)).length
      = min 2 (pyWords (Directive.cleanedText "alpha beta gamma")).length :=
  ⟨(claim_C7 "alpha beta gamma" 2).1, (claim_C7 "alpha beta gamma" 2).2 (by decide)⟩

/-- Claim C8: `suggest_metadata` returns stage `"formalizedframework"`
exactly when `"doctrine"` occurs in the lowercased content and
`"experientialdata"` otherwise; the domain is `"tradecraft"` with tag
`"code-snippet"` exactly when one of `"code"`, `"function"`, `"def "`
occurs; otherwise `"forensic-psychology"` with tag `"reflection"` exactly
when one of `"journal"`, `"diary"`, `"felt"` occurs; otherwise
`"social-engineering"` with no tag — the code branch takes precedence and
the outcomes are mutually exclusive. -/
theorem claim_C8 (content filename : String) :
    ((Toolkit.suggest_metadata content filename).2.2 == "formalizedframework")
        = strContains (pyLower content) "doctrine" ∧
    ((Toolkit.suggest_metadata content filename).2.2 == "experientialdata")
        = !strContains (pyLower content) "doctrine" ∧
    ((Toolkit.suggest_metadata content filename).1 == "tradecraft")
        = (strContains (pyLower content) "code" || strContains (pyLower content) "function"
            || strContains (pyLower content) "def ") ∧
    ((Toolkit.suggest_metadata content filename).1 == "forensic-psychology")
        = (!(strContains (pyLower content) "code" || strContains (pyLower content) "function"
            || strContains (pyLower content) "def ")
           && (strContains (pyLower content) "journal" || strContains (pyLower content) "diary"
            || strContains (pyLower content) "felt")) ∧
    ((Toolkit.suggest_metadata content filename).1 == "social-engineering")
        = (!(strContains (pyLower content) "code" || strContains (pyLower content) "function"
            || strContains (pyLower content) "def ")
           && !(strContains (pyLower content) "journal" || strContains (pyLower content) "diary"
            || strContains (pyLower content) "felt")) ∧
    ((Toolkit.suggest_metadata content filename).2.1 == "code-snippet")
        = (strContains (pyLower content) "code" || strContains (pyLower content) "function"
            || strContains (pyLower content) "def ") ∧
    ((Toolkit.suggest_metadata content filename).2.1 == "reflection")
        = (!(strContains (pyLower content) "code" || strContains (pyLower content) "function"
            || strContains (pyLower content) "def ")
           && (strContains (pyLower content) "journal" || strContains (pyLower content) "diary"
            || strContains (pyLower content) "felt")) := by
  cases hd : strContains (pyLower content) "doctrine" <;>
    cases hc : (strContains (pyLower content) "code" || strContains (pyLower content) "function"
        || strContains (pyLower content) "def ") <;>
      cases hj : (strContains (pyLower content) "journal" || strContains (pyLower content) "diary"
          || strContains (pyLower content) "felt") <;>
        simp [Toolkit.suggest_metadata, hd, hc, hj]

/-- Claim C10: `suggest_metadata` never reads its `filename` argument, so
its result is a function of the content alone. -/
theorem claim_C10 (content f1 f2 : String) :
    Toolkit.suggest_metadata content f1 = Toolkit.suggest_metadata content f2 := rfl

/-- Searching an association list from which all keys equal to `p` have been
removed is the same as searching the original list, for any key other than
`p`. -/
theorem find_filter_ne (fs : FS) (p q : String) (h : q ≠ p) :
    List.find? (fun kv => kv.1 == q) (List.filter (fun kv => kv.1 != p) fs)
      = List.find? (fun kv => kv.1 == q) fs := by
  induction fs with
  | nil => rfl
  | cons kv fs ih =>
    by_cases hkv : kv.1 = p
    · have h1 : (kv.1 != p) = false := by simp [hkv]
      have h2 : (kv.1 == q) = false := by
        simp only [beq_eq_false_iff_ne, ne_eq, hkv]
        exact fun hq => h hq.symm
      rw [List.filter_cons, h1]
      simp only [Bool.false_eq_true, if_false]
      rw [List.find?_cons, h2, ih]
    · have h1 : (kv.1 != p) = true := by simp [hkv]
      rw [List.filter_cons, h1]
      simp only [if_pos]
      rw [List.find?_cons, List.find?_cons]
      cases hq : (kv.1 == q) with
      | true => rfl
      | false => exact ih

theorem FS.read_write_self (fs : FS) (p c : String) : (fs.write p c).read p = some c := by
  rw [FS.write, FS.read, List.find?_cons]
  simp

theorem FS.read_write_ne (fs : FS) (p c q : String) (h : q ≠ p) :
    (fs.write p c).read q = fs.read q := by
  rw [FS.write, FS.read, FS.read, List.find?_cons]
  have h2 : ((p, c).1 == q) = false := by
    simp only [beq_eq_false_iff_ne, ne_eq]
    exact fun hq => h hq.symm
  rw [h2]
  simp only [Bool.false_eq_true, if_false]
  rw [find_filter_ne fs p q h]

theorem FS.read_remove_self (fs : FS) (p : String) : (fs.remove p).read p = none := by
  rw [FS.remove, FS.read]
  induction fs with
  | nil => rfl
  | cons kv fs ih =>
    by_cases hkv : kv.1 = p
    · have h1 : (kv.1 != p) = false := by simp [hkv]
      rw [List.filter_cons, h1]
      simp only [Bool.false_eq_true, if_false]
      exact ih
    · have h1 : (kv.1 != p) = true := by simp [hkv]
      rw [List.filter_cons, h1]
      simp only [if_pos]
      rw [List.find?_cons]
      have h2 : (kv.1 == p) = false := by simp [hkv]
      rw [h2]
      simp only [Bool.false_eq_true, if_false]
      exact ih

theorem FS.read_remove_ne (fs : FS) (p q : String) (h : q ≠ p) :
    (fs.remove p).read q = fs.read q := by
  rw [FS.remove, FS.read, FS.read]
  exact congrArg (Option.map (fun kv => kv.2)) (find_filter_ne fs p q h)

/-- Claim C1, counterexample: the ARCHIVE-TOOLKIT organizer has no
empty-domain check.  For a manifest row whose `suggested_domain` is empty
and whose staged source exists, the source file is deleted and a
destination file is created (under `knowledge-archive/experiential_data/`
with an empty domain path component, which `pathlib` drops), so the claim
fails on this Organizer. -/
theorem claim_C1_counterexample :
    FS.read [("notebooklm-import-raw/note.md", "hello world")]
        "notebooklm-import-raw/note.md" = some "hello world" ∧
    (Toolkit.processRow "2026-10-12" [("notebooklm-import-raw/note.md", "hello world")]
        ⟨"notebooklm-import-raw/note.md", "note.md", "", "", "experientialdata",
         "singleobservation", "internalreference", "2026-10-12", "personaldocumentation",
         "", "", "", "pending"⟩).1.read "notebooklm-import-raw/note.md" = none ∧
    ((Toolkit.processRow "2026-10-12" [("notebooklm-import-raw/note.md", "hello world")]
        ⟨"notebooklm-import-raw/note.md", "note.md", "", "", "experientialdata",
         "singleobservation", "internalreference", "2026-10-12", "personaldocumentation",
         "", "", "", "pending"⟩).1.read
        "knowledge-archive/experiential_data/-note-2026-10-12.md").isSome = true := by
  refine ⟨rfl, rfl, rfl⟩

/-- Claim C1 (amended): the empty-domain skip holds for the directive
variant's Organizer — an unclassified record leaves the file system
entirely unchanged, produces a skip log line, and the batch continues
with the remaining records; the ARCHIVE-TOOLKIT Organizer performs no
such check and moves an empty-domain record (see the counterexample). -/
theorem claim_C1 (today : String) (fs : FS) (row : Directive.DRow)
    (rows : List Directive.DRow) (h : row.pattern_domain = "") :
    Directive.processRow today fs row = (fs, Directive.DLog.skipNoDomain row.filename) ∧
    Directive.organize today fs (row :: rows)
      = ((Directive.organize today fs rows).1,
         Directive.DLog.skipNoDomain row.filename :: (Directive.organize today fs rows).2) := by
  have h1 : Directive.processRow today fs row
      = (fs, Directive.DLog.skipNoDomain row.filename) := by
    rw [Directive.processRow, if_pos h]
  refine ⟨h1, ?_⟩
  rw [Directive.organize, h1]

/-- Witness for C1 at a concrete unclassified record. -/
theorem claim_C1_witness :
    Directive.processRow "2026-10-12" [("notebooklm-import-raw/n.md", "x")]
        ⟨"n.md", "n.md", "", "", "raw", ""⟩
      = ([("notebooklm-import-raw/n.md", "x")], Directive.DLog.skipNoDomain "n.md") ∧
    Directive.organize "2026-10-12" [("notebooklm-import-raw/n.md", "x")]
        [⟨"n.md", "n.md", "", "", "raw", ""⟩]
      = ([("notebooklm-import-raw/n.md", "x")], [Directive.DLog.skipNoDomain "n.md"]) :=
  ⟨(claim_C1 "2026-10-12" [("notebooklm-import-raw/n.md", "x")]
      ⟨"n.md", "n.md", "", "", "raw", ""⟩ [] rfl).1,
   (claim_C1 "2026-10-12" [("notebooklm-import-raw/n.md", "x")]
      ⟨"n.md", "n.md", "", "", "raw", ""⟩ [] rfl).2⟩

/-- Claim C6: a record whose recorded source path has no existing file is
skipped with a report by both Organizer variants; the file system is
completely unchanged (nothing deleted, nothing created) and the batch
continues with the remaining records exactly as if started from the same
state. -/
theorem claim_C6 :
    (∀ (today : String) (fs : FS) (row : Toolkit.Row),
       fs.haveFile (Toolkit.srcPath row) = false →
       Toolkit.processRow today fs row = (fs, Toolkit.Log.skippedMissing row.original_path)) ∧
    (∀ (today : String) (fs : FS) (row : Toolkit.Row) (rows : List Toolkit.Row),
       fs.haveFile (Toolkit.srcPath row) = false →
       Toolkit.organize today fs (row :: rows)
         = ((Toolkit.organize today fs rows).1,
            (Toolkit.organize today fs rows).2.1,
            Toolkit.Log.skippedMissing row.original_path
              :: (Toolkit.organize today fs rows).2.2)) ∧
    (∀ (today : String) (fs : FS) (row : Directive.DRow),
       row.pattern_domain ≠ "" →
       fs.haveFile (Directive.srcPath row) = false →
       Directive.processRow today fs row
         = (fs, Directive.DLog.warnMissing (Directive.srcPath row))) := by
  refine ⟨?_, ?_, ?_⟩
  · intro today fs row h
    rw [Toolkit.processRow, if_pos h]
  · intro today fs row rows h
    have h1 : Toolkit.processRow today fs row
        = (fs, Toolkit.Log.skippedMissing row.original_path) := by
      rw [Toolkit.processRow, if_pos h]
    rw [Toolkit.organize, h1]
  · intro today fs row hdom h
    rw [Directive.processRow, if_neg hdom, if_pos h]

/-- Witness for C6: both variants at a concrete missing-source record. -/
theorem claim_C6_witness :
    Toolkit.processRow "2026-10-12" []
        ⟨"notebooklm-import-raw/gone.md", "gone.md", "tradecraft", "", "experientialdata",
         "", "", "", "", "", "", "", ""⟩
      = ([], Toolkit.Log.skippedMissing "notebooklm-import-raw/gone.md") ∧
    Directive.processRow "2026-10-12" [] ⟨"gone.md", "gone.md", "tradecraft", "", "raw", ""⟩
      = ([], Directive.DLog.warnMissing "notebooklm-import-raw/gone.md") :=
  ⟨claim_C6.1 "2026-10-12" []
      ⟨"notebooklm-import-raw/gone.md", "gone.md", "tradecraft", "", "experientialdata",
       "", "", "", "", "", "", "", ""⟩ rfl,
   claim_C6.2.2 "2026-10-12" [] ⟨"gone.md", "gone.md", "tradecraft", "", "raw", ""⟩
      (by decide) rfl⟩

/-- Claim C2, counterexample: the directive Organizer neither deletes the
staged source nor strips its `---` header.  After processing, the staged
file still exists with its old content, and the body of the archived file
(everything after the injected header's closing `---` and blank line) is
the verbatim old content, which still begins with the carried-over `---`
header. -/
theorem claim_C2_counterexample :
    (Directive.processRow "2026-10-12"
        [("notebooklm-import-raw/doc.md", "---\nold: 1\n---\nBody text")]
        ⟨"doc.md", "doc.md", "tradecraft", "", "raw", ""⟩).1.read
        "notebooklm-import-raw/doc.md" = some "---\nold: 1\n---\nBody text" ∧
    (Directive.processRow "2026-10-12"
        [("notebooklm-import-raw/doc.md", "---\nold: 1\n---\nBody text")]
        ⟨"doc.md", "doc.md", "tradecraft", "", "raw", ""⟩).1.read
        "archive/tradecraft/experiential_data/doc.md"
      = some ("---\npatterndomain: tradecraft\nmaturationstage: raw\npatterntags: []\nvalidationstatus: singleobservation\ninstructionalreadiness: internalreference\ntemporal_context:\n  experience_date: ''\n  analysis_date: 2026-10-12\nprovenance: personaldocumentation\nsource: notebooklm\nimport_date: 2026-10-12\n---\n\n"
          ++ "---\nold: 1\n---\nBody text") ∧
    pyStartsWith "---\nold: 1\n---\nBody text" "---" = true := by
  refine ⟨rfl, by decide, rfl⟩

/-- Claim C3, counterexample: the ARCHIVE-TOOLKIT Organizer applies no
normalisation.  For the record with domain `"Tradecraft "` (trailing
space) and stage `"Formalized Framework"`, no file is created anywhere
under `knowledge-archive/tradecraft/`; instead the file lands under the
raw `"Tradecraft "` directory with the unmapped stage defaulting to
`experiential_data`, and its header carries the raw `patterndomain:
Tradecraft ` rather than the lowercase-hyphenated value. -/
theorem claim_C3_counterexample :
    List.all (Toolkit.processRow "2026-10-12"
        [("notebooklm-import-raw/note.md", "hello world")]
        ⟨"notebooklm-import-raw/note.md", "note.md", "Tradecraft ", "humint;code-snippet",
         "Formalized Framework", "singleobservation", "internalreference", "",
         "personaldocumentation", "", "", "", "pending"⟩).1
      (fun kv => !pyStartsWith kv.1 "knowledge-archive/tradecraft/") = true ∧
    ((Toolkit.processRow "2026-10-12"
        [("notebooklm-import-raw/note.md", "hello world")]
        ⟨"notebooklm-import-raw/note.md", "note.md", "Tradecraft ", "humint;code-snippet",
         "Formalized Framework", "singleobservation", "internalreference", "",
         "personaldocumentation", "", "", "", "pending"⟩).1.read
        "knowledge-archive/Tradecraft /experiential_data/Tradecraft -note-2026-10-12.md").isSome
      = true ∧
    strContains
      (((Toolkit.processRow "2026-10-12"
          [("notebooklm-import-raw/note.md", "hello world")]
          ⟨"notebooklm-import-raw/note.md", "note.md", "Tradecraft ", "humint;code-snippet",
           "Formalized Framework", "singleobservation", "internalreference", "",
           "personaldocumentation", "", "", "", "pending"⟩).1.read
          "knowledge-archive/Tradecraft /experiential_data/Tradecraft -note-2026-10-12.md").getD "")
      "patterndomain: Tradecraft \n" = true ∧
    strContains
      (((Toolkit.processRow "2026-10-12"
          [("notebooklm-import-raw/note.md", "hello world")]
          ⟨"notebooklm-import-raw/note.md", "note.md", "Tradecraft ", "humint;code-snippet",
           "Formalized Framework", "singleobservation", "internalreference", "",
           "personaldocumentation", "", "", "", "pending"⟩).1.read
          "knowledge-archive/Tradecraft /experiential_data/Tradecraft -note-2026-10-12.md").getD "")
      "patterndomain: tradecraft" = false := by
  refine ⟨rfl, rfl, by decide, by decide⟩

theorem leadsWith_append_self (p t : List Char) : leadsWith p (p ++ t) = true := by
  induction p with
  | nil => rfl
  | cons a as ih => simp [leadsWith, ih]

theorem leadsWith_ex {p s : List Char} (h : leadsWith p s = true) : ∃ t, s = p ++ t := by
  induction p generalizing s with
  | nil => exact ⟨s, rfl⟩
  | cons a as ih =>
    cases s with
    | nil => simp [leadsWith] at h
    | cons b bs =>
      rw [leadsWith, Bool.and_eq_true] at h
      obtain ⟨hab, hrest⟩ := h
      obtain ⟨t, ht⟩ := ih hrest
      exact ⟨t, by simp [(beq_iff_eq.mp hab), ht]⟩

/-- Whether `p` leads a list only depends on the first `p.length`
characters. -/
theorem leadsWith_take (p : List Char) : ∀ s, leadsWith p s = leadsWith p (s.take p.length) := by
  induction p with
  | nil => intro s; rfl
  | cons a as ih =>
    intro s
    cases s with
    | nil => rfl
    | cons b bs =>
      rw [List.length_cons, List.take_succ_cons, leadsWith, leadsWith, ih bs]

theorem take_append_le (n : Nat) (x y : List Char) (h : n ≤ x.length) :
    (x ++ y).take n = x.take n := by
  induction x generalizing n with
  | nil =>
    have : n = 0 := Nat.le_zero.mp h
    simp [this]
  | cons a as ih =>
    cases n with
    | zero => simp
    | succ m =>
      rw [List.cons_append, List.take_succ_cons, List.take_succ_cons,
        ih m (Nat.succ_le_succ_iff.mp h)]

theorem splitFirst_cons_none {sep : List Char} {c : Char} {cs : List Char}
    (h : splitFirst sep (c :: cs) = none) :
    leadsWith sep (c :: cs) = false ∧ splitFirst sep cs = none := by
  rw [splitFirst] at h
  by_cases hl : leadsWith sep (c :: cs) = true
  · rw [if_pos hl] at h; exact absurd h (by simp)
  · rw [if_neg hl] at h
    refine ⟨by simpa using hl, ?_⟩
    cases hs : splitFirst sep cs with
    | none => rfl
    | some pr => rw [hs] at h; simp at h

/-- A successful split decomposes the list around the separator. -/
theorem splitFirst_sound {sep : List Char} :
    ∀ {s pre post : List Char}, splitFirst sep s = some (pre, post) → s = pre ++ sep ++ post := by
  intro s
  induction s with
  | nil => intro pre post h; rw [splitFirst] at h; exact absurd h (by simp)
  | cons c cs ih =>
    intro pre post h
    rw [splitFirst] at h
    by_cases hl : leadsWith sep (c :: cs) = true
    · rw [if_pos hl] at h
      rw [Option.some.injEq, Prod.mk.injEq] at h
      obtain ⟨hpre, hpost⟩ := h
      obtain ⟨t, ht⟩ := leadsWith_ex hl
      subst hpre
      rw [ht] at hpost ⊢
      rw [List.drop_left] at hpost
      rw [← hpost]
      simp
    · rw [if_neg hl] at h
      cases hs : splitFirst sep cs with
      | none => rw [hs] at h; simp at h
      | some pr =>
        rw [hs] at h
        obtain ⟨q, r⟩ := pr
        simp only [Option.map_some', Option.some.injEq, Prod.mk.injEq] at h
        obtain ⟨hpre, hpost⟩ := h
        have hcs : cs = q ++ sep ++ r := ih hs
        subst hpost
        rw [← hpre, hcs]
        simp

/-- Splitting a list that begins with the separator. -/
theorem splitFirst_self (sep b : List Char) (hsep : sep ≠ []) :
    splitFirst sep (sep ++ b) = some ([], b) := by
  cases sep with
  | nil => exact absurd rfl hsep
  | cons x xs =>
    show splitFirst (x :: xs) (x :: (xs ++ b)) = _
    rw [splitFirst, if_pos (by exact leadsWith_append_self (x :: xs) b)]
    rw [show x :: (xs ++ b) = (x :: xs) ++ b from rfl, List.drop_left]

/-- Main decomposition lemma: if the separator does not occur in
`a ++ sep.dropLast` (which rules out both occurrences inside `a` and
occurrences straddling into the explicit separator), then the first
occurrence of `sep` in `a ++ sep ++ b` is the explicit one. -/
theorem splitFirst_append (sep a b : List Char) (hsep : sep ≠ [])
    (h : splitFirst sep (a ++ sep.dropLast) = none) :
    splitFirst sep (a ++ sep ++ b) = some (a, b) := by
  induction a with
  | nil => simpa using splitFirst_self sep b hsep
  | cons c a' ih =>
    have h' := splitFirst_cons_none (by simpa using h)
    obtain ⟨hlw, hrec⟩ := h'
    have hsplit : c :: (a' ++ sep ++ b)
        = (c :: (a' ++ sep.dropLast)) ++ ([sep.getLast hsep] ++ b) := by
      calc c :: (a' ++ sep ++ b)
          = c :: (a' ++ (sep.dropLast ++ [sep.getLast hsep]) ++ b) := by
            rw [List.dropLast_append_getLast hsep]
        _ = (c :: (a' ++ sep.dropLast)) ++ ([sep.getLast hsep] ++ b) := by simp
    have hlw2 : leadsWith sep (c :: (a' ++ sep ++ b)) = false := by
      rw [leadsWith_take]
      rw [show (c :: (a' ++ sep ++ b)).take sep.length
          = (c :: (a' ++ sep.dropLast)).take sep.length from ?_]
      · rw [← leadsWith_take]
        exact hlw
      · rw [hsplit]
        apply take_append_le
        rcases Nat.exists_eq_succ_of_ne_zero
          (fun h0 => hsep (List.length_eq_zero.mp h0)) with ⟨m, hm⟩
        simp only [List.length_cons, List.length_append, List.length_dropLast, hm]
        omega
    have hlw2' : leadsWith sep (c :: (a' ++ (sep ++ b))) = false := by
      simpa using hlw2
    show splitFirst sep (c :: (a' ++ sep ++ b)) = _
    rw [splitFirst, if_neg (by simp [hlw2']), ih hrec]
    rfl

/-- Stripping a well-formed single leading header: if the header body `a`
admits no early `\n---\n` delimiter (including one straddling into the
closing delimiter), the regex removes exactly the header and returns the
body `b`. -/
theorem stripFM_single (a b : String)
    (h : splitFirst fmDelim (a.data ++ ['\n', '-', '-', '-']) = none) :
    stripFM ("---\n" ++ a ++ "\n---\n" ++ b) = b := by
  have hdata : ("---\n" ++ a ++ "\n---\n" ++ b).data
      = "---\n".data ++ (a.data ++ fmDelim ++ b.data) := by
    simp [str_data_append, List.append_assoc, fmDelim]
  have hstart : pyStartsWith ("---\n" ++ a ++ "\n---\n" ++ b) "---\n" = true := by
    rw [pyStartsWith, hdata]
    exact leadsWith_append_self _ _
  rw [stripFM, if_pos hstart]
  have hdrop : ("---\n" ++ a ++ "\n---\n" ++ b).data.drop 4
      = a.data ++ fmDelim ++ b.data := by
    rw [hdata, show (4 : Nat) = "---\n".data.length from rfl, List.drop_left]
  rw [hdrop, splitFirst_append fmDelim a.data b.data (by decide)
    (by rw [show fmDelim.dropLast = ['\n', '-', '-', '-'] from rfl]; exact h)]

/-- Unfolding of the ARCHIVE-TOOLKIT per-record step when the source file
exists. -/
theorem Toolkit.processRow_moves (today : String) (fs : FS) (row : Toolkit.Row)
    (content : String) (hsrc : fs.read (Toolkit.srcPath row) = some content) :
    Toolkit.processRow today fs row
      = ((fs.write (Toolkit.destPath row today)
            (Toolkit.frontmatter row today ++ stripFM content)).remove (Toolkit.srcPath row),
         Toolkit.Log.moved row.filename (Toolkit.destPath row today)) := by
  rw [Toolkit.processRow]
  have hhf : fs.haveFile (Toolkit.srcPath row) = true := by
    rw [FS.haveFile, hsrc]; rfl
  rw [if_neg (by rw [hhf]; simp)]
  rw [hsrc]
  rfl

/-- Unfolding of the directive per-record step when the record is
classified and the source file exists. -/
theorem Directive.processRow_writes (today : String) (fs : FS) (row : Directive.DRow)
    (content : String) (hdom : row.pattern_domain ≠ "")
    (hsrc : fs.read (Directive.srcPath row) = some content) :
    Directive.processRow today fs row
      = (fs.write (Directive.destPath row) (Directive.fileContent row today content),
         Directive.DLog.moved row.filename (Directive.destPath row)) := by
  rw [Directive.processRow, if_neg hdom]
  have hhf : fs.haveFile (Directive.srcPath row) = true := by
    rw [FS.haveFile, hsrc]; rfl
  rw [if_neg (by rw [hhf]; simp)]
  rw [hsrc]
  rfl

/-- Claim C2 (amended): the deletion-and-strip contract holds for the
ARCHIVE-TOOLKIT Organizer: when the staged source exists (and its path
differs from the computed destination), the source file is gone
afterwards and the archived file is exactly the new header followed by
the source content with its leading `---` header removed by `stripFM`;
for a source consisting of a single well-formed header before a body,
that body is recovered exactly, so headers do not nest.  The directive
Organizer satisfies neither part (see the counterexample). -/
theorem claim_C2 (today : String) (fs : FS) (row : Toolkit.Row) (content : String)
    (hsrc : fs.read (Toolkit.srcPath row) = some content)
    (hne : Toolkit.srcPath row ≠ Toolkit.destPath row today) :
    (Toolkit.processRow today fs row).1.read (Toolkit.srcPath row) = none ∧
    (Toolkit.processRow today fs row).1.read (Toolkit.destPath row today)
      = some (Toolkit.frontmatter row today ++ stripFM content) ∧
    (∀ a b : String, content = "---\n" ++ a ++ "\n---\n" ++ b →
      splitFirst fmDelim (a.data ++ ['\n', '-', '-', '-']) = none →
      stripFM content = b) := by
  rw [Toolkit.processRow_moves today fs row content hsrc]
  refine ⟨FS.read_remove_self _ _, ?_, ?_⟩
  · rw [FS.read_remove_ne _ _ _ (Ne.symm hne), FS.read_write_self]
  · intro a b hc hno
    rw [hc]
    exact stripFM_single a b hno

/-- Witness for C2: a concrete staged file with one `---` header is moved,
the source disappears, and the archived body is the bare `"Hello"`. -/
theorem claim_C2_witness :
    (Toolkit.processRow "2026-10-12"
        [("notebooklm-import-raw/x.md", "---\nold: 1\n---\nHello")]
        ⟨"notebooklm-import-raw/x.md", "x.md", "tradecraft", "", "experientialdata",
         "", "", "", "", "", "", "", ""⟩).1.read "notebooklm-import-raw/x.md" = none ∧
    (Toolkit.processRow "2026-10-12"
        [("notebooklm-import-raw/x.md", "---\nold: 1\n---\nHello")]
        ⟨"notebooklm-import-raw/x.md", "x.md", "tradecraft", "", "experientialdata",
         "", "", "", "", "", "", "", ""⟩).1.read
        (Toolkit.destPath
          ⟨"notebooklm-import-raw/x.md", "x.md", "tradecraft", "", "experientialdata",
           "", "", "", "", "", "", "", ""⟩ "2026-10-12")
      = some (Toolkit.frontmatter
          ⟨"notebooklm-import-raw/x.md", "x.md", "tradecraft", "", "experientialdata",
           "", "", "", "", "", "", "", ""⟩ "2026-10-12"
          ++ stripFM "---\nold: 1\n---\nHello") ∧
    stripFM "---\nold: 1\n---\nHello" = "Hello" :=
  ⟨(claim_C2 "2026-10-12" [("notebooklm-import-raw/x.md", "---\nold: 1\n---\nHello")]
      ⟨"notebooklm-import-raw/x.md", "x.md", "tradecraft", "", "experientialdata",
       "", "", "", "", "", "", "", ""⟩ "---\nold: 1\n---\nHello" rfl (by decide)).1,
   (claim_C2 "2026-10-12" [("notebooklm-import-raw/x.md", "---\nold: 1\n---\nHello")]
      ⟨"notebooklm-import-raw/x.md", "x.md", "tradecraft", "", "experientialdata",
       "", "", "", "", "", "", "", ""⟩ "---\nold: 1\n---\nHello" rfl (by decide)).2.1,
   (claim_C2 "2026-10-12" [("notebooklm-import-raw/x.md", "---\nold: 1\n---\nHello")]
      ⟨"notebooklm-import-raw/x.md", "x.md", "tradecraft", "", "experientialdata",
       "", "", "", "", "", "", "", ""⟩ "---\nold: 1\n---\nHello" rfl (by decide)).2.2
      "old: 1" "Hello" (by decide) (by decide)⟩

/-- Claim C3 (amended): the round-trip holds for the directive Organizer:
domain `"Tradecraft "` and stage `"Formalized Framework"` are normalised
so the destination is `archive/tradecraft/formalized_frameworks/…`, the
written header carries `patterndomain: tradecraft`, and the semicolon-
separated tag field is serialised as a JSON-style array of strings — but
by the comma-splitting rule of this variant, as the single-element array
`["humint;code-snippet"]`.  The ARCHIVE-TOOLKIT Organizer applies no
normalisation at all (see the counterexample). -/
theorem claim_C3 (today : String) (fs : FS) (row : Directive.DRow) (content : String)
    (hd : row.pattern_domain = "Tradecraft ")
    (hs : row.maturation_stage = "Formalized Framework")
    (ht : row.pattern_tags = "humint;code-snippet")
    (hsrc : fs.read (Directive.srcPath row) = some content) :
    Directive.destPath row
      = pJoin "archive/tradecraft/formalized_frameworks" (Directive.destName row.filename) ∧
    (Directive.processRow today fs row).1.read (Directive.destPath row)
      = some (Directive.fileContent row today content) ∧
    Directive.fileContent row today content
      = "---\npatterndomain: " ++ "tradecraft" ++ "\nmaturationstage: "
          ++ "Formalized Framework" ++ "\npatterntags: " ++ "[\"humint;code-snippet\"]"
          ++ "\nvalidationstatus: singleobservation"
          ++ "\ninstructionalreadiness: internalreference"
          ++ "\ntemporal_context:\n  experience_date: ''"
          ++ "\n  analysis_date: " ++ today
          ++ "\nprovenance: personaldocumentation"
          ++ "\nsource: notebooklm"
          ++ "\nimport_date: " ++ today
          ++ "\n---\n\n" ++ content := by
  obtain ⟨fp, fn, pd, pt, ms, sn⟩ := row
  have hd' : pd = "Tradecraft " := hd
  have hs' : ms = "Formalized Framework" := hs
  have ht' : pt = "humint;code-snippet" := ht
  subst hd'; subst hs'; subst ht'
  refine ⟨rfl, ?_, rfl⟩
  rw [Directive.processRow_writes today fs _ content
    (by show ("Tradecraft " : String) ≠ ""; decide) hsrc]
  exact FS.read_write_self _ _ _

/-- Witness for C3 at a concrete record and staging file. -/
theorem claim_C3_witness :
    Directive.destPath ⟨"note.md", "note.md", "Tradecraft ", "humint;code-snippet",
        "Formalized Framework", ""⟩
      = "archive/tradecraft/formalized_frameworks/note.md" ∧
    (Directive.processRow "2026-10-12"
        [("notebooklm-import-raw/note.md", "Hello doctrine world")]
        ⟨"note.md", "note.md", "Tradecraft ", "humint;code-snippet",
         "Formalized Framework", ""⟩).1.read
        (Directive.destPath ⟨"note.md", "note.md", "Tradecraft ", "humint;code-snippet",
          "Formalized Framework", ""⟩)
      = some (Directive.fileContent
          ⟨"note.md", "note.md", "Tradecraft ", "humint;code-snippet",
           "Formalized Framework", ""⟩ "2026-10-12" "Hello doctrine world") ∧
    Directive.fileContent
        ⟨"note.md", "note.md", "Tradecraft ", "humint;code-snippet",
         "Formalized Framework", ""⟩ "2026-10-12" "Hello doctrine world"
      = "---\npatterndomain: tradecraft\nmaturationstage: Formalized Framework\npatterntags: [\"humint;code-snippet\"]\nvalidationstatus: singleobservation\ninstructionalreadiness: internalreference\ntemporal_context:\n  experience_date: ''\n  analysis_date: 2026-10-12\nprovenance: personaldocumentation\nsource: notebooklm\nimport_date: 2026-10-12\n---\n\nHello doctrine world" := by
  refine ⟨?_, ?_, ?_⟩
  · have h := (claim_C3 "2026-10-12"
      [("notebooklm-import-raw/note.md", "Hello doctrine world")]
      ⟨"note.md", "note.md", "Tradecraft ", "humint;code-snippet", "Formalized Framework", ""⟩
      "Hello doctrine world" rfl rfl rfl rfl).1
    rw [h]
    rfl
  · exact (claim_C3 "2026-10-12"
      [("notebooklm-import-raw/note.md", "Hello doctrine world")]
      ⟨"note.md", "note.md", "Tradecraft ", "humint;code-snippet", "Formalized Framework", ""⟩
      "Hello doctrine world" rfl rfl rfl rfl).2.1
  · have h := (claim_C3 "2026-10-12"
      [("notebooklm-import-raw/note.md", "Hello doctrine world")]
      ⟨"note.md", "note.md", "Tradecraft ", "humint;code-snippet", "Formalized Framework", ""⟩
      "Hello doctrine world" rfl rfl rfl rfl).2.2
    rw [h]
    decide

/-- Characterisation of the domain issues produced for one row. -/
theorem mem_rowIssues_domain {vd vt : List String} {row : Toolkit.Row} {f d : String} :
    Toolkit.Issue.invalidDomain f d ∈ Toolkit.rowIssues vd vt row ↔
      (f = row.filename ∧ d = row.suggested_domain ∧
       row.suggested_domain ≠ "" ∧ row.suggested_domain ∉ vd) := by
  rw [Toolkit.rowIssues]
  constructor
  · intro h
    rcases List.mem_append.mp h with h | h
    · by_cases hcond : row.suggested_domain ≠ "" ∧ row.suggested_domain ∉ vd
      · rw [if_pos hcond] at h
        rcases List.mem_singleton.mp h with heq
        injection heq with h1 h2
        exact ⟨h1, h2, hcond.1, hcond.2⟩
      · rw [if_neg hcond] at h
        exact absurd h (List.not_mem_nil _)
    · exfalso
      rcases List.mem_filterMap.mp h with ⟨t, _, hsome⟩
      by_cases hc : t ∉ vt
      · rw [if_pos hc] at hsome
        injection hsome with heq
        exact Toolkit.Issue.noConfusion heq
      · rw [if_neg hc] at hsome
        exact Option.noConfusion hsome
  · rintro ⟨rfl, rfl, h1, h2⟩
    apply List.mem_append_left
    rw [if_pos ⟨h1, h2⟩]
    exact List.mem_singleton.mpr rfl

/-- Characterisation of the tag issues produced for one row. -/
theorem mem_rowIssues_tag {vd vt : List String} {row : Toolkit.Row} {f t : String} :
    Toolkit.Issue.invalidTag f t ∈ Toolkit.rowIssues vd vt row ↔
      (f = row.filename ∧ t ∈ splitStripList ';' row.suggested_tags ∧ t ∉ vt) := by
  rw [Toolkit.rowIssues]
  constructor
  · intro h
    rcases List.mem_append.mp h with h | h
    · exfalso
      by_cases hcond : row.suggested_domain ≠ "" ∧ row.suggested_domain ∉ vd
      · rw [if_pos hcond] at h
        rcases List.mem_singleton.mp h with heq
        exact Toolkit.Issue.noConfusion heq
      · rw [if_neg hcond] at h
        exact absurd h (List.not_mem_nil _)
    · rcases List.mem_filterMap.mp h with ⟨u, hu, hsome⟩
      by_cases hc : u ∉ vt
      · rw [if_pos hc] at hsome
        injection hsome with heq
        injection heq with h1 h2
        exact ⟨h1.symm, h2 ▸ hu, h2 ▸ hc⟩
      · rw [if_neg hc] at hsome
        exact Option.noConfusion hsome
  · rintro ⟨rfl, hmem, hnot⟩
    apply List.mem_append_right
    exact List.mem_filterMap.mpr ⟨t, hmem, by rw [if_pos hnot]⟩

/-- Membership in the full validator output. -/
theorem mem_validate {rows : List Toolkit.Row} {domains tags : Toolkit.TaxonomyFile}
    {i : Toolkit.Issue} :
    i ∈ Toolkit.validate_manifest rows domains tags ↔
      ∃ row ∈ rows, i ∈ Toolkit.rowIssues (Toolkit.taxIds domains) (Toolkit.taxIds tags) row := by
  rw [Toolkit.validate_manifest]
  constructor
  · intro h
    rcases List.mem_flatten.mp h with ⟨l, hl, hi⟩
    rcases List.mem_map.mp hl with ⟨row, hrow, rfl⟩
    exact ⟨row, hrow, hi⟩
  · rintro ⟨row, hrow, hi⟩
    exact List.mem_flatten.mpr ⟨_, List.mem_map.mpr ⟨row, hrow, rfl⟩, hi⟩

/-- Claim C4: for every manifest and pair of taxonomy tables (bare ids or
id/description records), `validate_manifest` flags exactly the rows whose
non-empty domain is outside the valid-domain set and exactly the parsed
tags outside the valid-tag set — every such defect is reported, every
reported defect is real — and it is a pure function of manifest and
taxonomy (two runs on unchanged inputs are identical; the embedding has
no mutable state, so neither input can be mutated). -/
theorem claim_C4 (rows : List Toolkit.Row) (domains tags : Toolkit.TaxonomyFile) :
    (∀ row ∈ rows, row.suggested_domain ≠ "" →
       row.suggested_domain ∉ Toolkit.taxIds domains →
       Toolkit.Issue.invalidDomain row.filename row.suggested_domain
         ∈ Toolkit.validate_manifest rows domains tags) ∧
    (∀ f d, Toolkit.Issue.invalidDomain f d ∈ Toolkit.validate_manifest rows domains tags →
       d ∉ Toolkit.taxIds domains ∧ d ≠ "" ∧
       ∃ row ∈ rows, row.filename = f ∧ row.suggested_domain = d) ∧
    (∀ row ∈ rows, ∀ t ∈ splitStripList ';' row.suggested_tags,
       t ∉ Toolkit.taxIds tags →
       Toolkit.Issue.invalidTag row.filename t
         ∈ Toolkit.validate_manifest rows domains tags) ∧
    (∀ f t, Toolkit.Issue.invalidTag f t ∈ Toolkit.validate_manifest rows domains tags →
       t ∉ Toolkit.taxIds tags ∧
       ∃ row ∈ rows, row.filename = f ∧ t ∈ splitStripList ';' row.suggested_tags) ∧
    Toolkit.validate_manifest rows domains tags
      = Toolkit.validate_manifest rows domains tags := by
  refine ⟨?_, ?_, ?_, ?_, rfl⟩
  · intro row hrow hne hnot
    exact mem_validate.mpr ⟨row, hrow, mem_rowIssues_domain.mpr ⟨rfl, rfl, hne, hnot⟩⟩
  · intro f d hmem
    rcases mem_validate.mp hmem with ⟨row, hrow, hi⟩
    rcases mem_rowIssues_domain.mp hi with ⟨hf, hd, hne, hnot⟩
    exact ⟨hd ▸ hnot, hd ▸ hne, row, hrow, hf.symm, hd.symm⟩
  · intro row hrow t hmem hnot
    exact mem_validate.mpr ⟨row, hrow, mem_rowIssues_tag.mpr ⟨rfl, hmem, hnot⟩⟩
  · intro f t hmem
    rcases mem_validate.mp hmem with ⟨row, hrow, hi⟩
    rcases mem_rowIssues_tag.mp hi with ⟨hf, hmem', hnot⟩
    exact ⟨hnot, row, hrow, hf.symm, hmem'⟩

/-- Witness for C4: one row with a bogus domain and one unknown tag next
to one known tag, against a record-shaped domain table and a bare-id tag
table. -/
theorem claim_C4_witness :
    Toolkit.Issue.invalidDomain "f.md" "bogus"
      ∈ Toolkit.validate_manifest
          [⟨"p", "f.md", "bogus", "humint; weird", "experientialdata",
            "", "", "", "", "", "", "", ""⟩]
          (Toolkit.TaxonomyFile.recs [("tradecraft", "x"), ("neurobiology", "y")])
          (Toolkit.TaxonomyFile.ids ["humint", "reflection"]) ∧
    Toolkit.Issue.invalidTag "f.md" "weird"
      ∈ Toolkit.validate_manifest
          [⟨"p", "f.md", "bogus", "humint; weird", "experientialdata",
            "", "", "", "", "", "", "", ""⟩]
          (Toolkit.TaxonomyFile.recs [("tradecraft", "x"), ("neurobiology", "y")])
          (Toolkit.TaxonomyFile.ids ["humint", "reflection"]) ∧
    ¬ Toolkit.Issue.invalidTag "f.md" "humint"
      ∈ Toolkit.validate_manifest
          [⟨"p", "f.md", "bogus", "humint; weird", "experientialdata",
            "", "", "", "", "", "", "", ""⟩]
          (Toolkit.TaxonomyFile.recs [("tradecraft", "x"), ("neurobiology", "y")])
          (Toolkit.TaxonomyFile.ids ["humint", "reflection"]) := by
  refine ⟨?_, ?_, ?_⟩
  · exact (claim_C4 [⟨"p", "f.md", "bogus", "humint; weird", "experientialdata",
      "", "", "", "", "", "", "", ""⟩]
      (Toolkit.TaxonomyFile.recs [("tradecraft", "x"), ("neurobiology", "y")])
      (Toolkit.TaxonomyFile.ids ["humint", "reflection"])).1
      ⟨"p", "f.md", "bogus", "humint; weird", "experientialdata",
       "", "", "", "", "", "", "", ""⟩
      (List.mem_singleton.mpr rfl) (by decide) (by decide)
  · exact (claim_C4 [⟨"p", "f.md", "bogus", "humint; weird", "experientialdata",
      "", "", "", "", "", "", "", ""⟩]
      (Toolkit.TaxonomyFile.recs [("tradecraft", "x"), ("neurobiology", "y")])
      (Toolkit.TaxonomyFile.ids ["humint", "reflection"])).2.2.1
      ⟨"p", "f.md", "bogus", "humint; weird", "experientialdata",
       "", "", "", "", "", "", "", ""⟩
      (List.mem_singleton.mpr rfl) "weird" (by decide) (by decide)
  · intro hmem
    have h := (claim_C4 [⟨"p", "f.md", "bogus", "humint; weird", "experientialdata",
      "", "", "", "", "", "", "", ""⟩]
      (Toolkit.TaxonomyFile.recs [("tradecraft", "x"), ("neurobiology", "y")])
      (Toolkit.TaxonomyFile.ids ["humint", "reflection"])).2.2.2.1 "f.md" "humint" hmem
    exact h.1 (by decide)

theorem leadsWith_mono_append {p s : List Char} (t : List Char)
    (h : leadsWith p s = true) : leadsWith p (s ++ t) = true := by
  induction p generalizing s with
  | nil => rfl
  | cons a as ih =>
    cases s with
    | nil => simp [leadsWith] at h
    | cons b bs =>
      rw [leadsWith, Bool.and_eq_true] at h
      rw [List.cons_append, leadsWith, Bool.and_eq_true]
      exact ⟨h.1, ih h.2⟩

/-- If `p` leads `x ++ y` and `x` is not longer than `p`, then `p` splits
as `x` followed by a part leading `y`. -/
theorem leadsWith_split {p : List Char} :
    ∀ {x y : List Char}, leadsWith p (x ++ y) = true → x.length ≤ p.length →
      p = x ++ p.drop x.length ∧ leadsWith (p.drop x.length) y = true := by
  intro x
  induction x generalizing p with
  | nil => intro y h _; exact ⟨rfl, h⟩
  | cons c x' ih =>
    intro y h hlen
    cases p with
    | nil => simp at hlen
    | cons a as =>
      rw [List.cons_append, leadsWith, Bool.and_eq_true] at h
      have hax : a = c := beq_iff_eq.mp h.1
      have := ih (p := as) h.2 (Nat.succ_le_succ_iff.mp (by simpa using hlen))
      refine ⟨?_, ?_⟩
      · rw [List.length_cons, List.drop_succ_cons, hax]
        rw [List.cons_append]
        exact congrArg (c :: ·) this.1
      · rw [List.length_cons, List.drop_succ_cons]
        exact this.2

theorem endsIn_self (l : List Char) : endsIn l l = true := by
  rw [endsIn]
  have := leadsWith_append_self l.reverse []
  simpa using this

theorem endsIn_cons {s l : List Char} (c : Char) (h : endsIn s l = true) :
    endsIn s (c :: l) = true := by
  rw [endsIn, List.reverse_cons]
  exact leadsWith_mono_append [c] h

/-- Gluing two occurrence-free lists: the combination is occurrence-free
provided no split of the separator straddles the boundary. -/
theorem splitFirst_append_none (sep : List Char) :
    ∀ (a b : List Char), sep ≠ [] →
      splitFirst sep a = none → splitFirst sep b = none →
      (∀ s1 s2, sep = s1 ++ s2 → s1 ≠ [] → s2 ≠ [] →
        leadsWith s2 b = false ∨ endsIn s1 a = false) →
      splitFirst sep (a ++ b) = none := by
  intro a
  induction a with
  | nil => intro b _ _ hb _; simpa using hb
  | cons c a' ih =>
    intro b hsep ha hb hx
    obtain ⟨hlw, ha'⟩ := splitFirst_cons_none ha
    have hcond : leadsWith sep (c :: (a' ++ b)) = false := by
      by_cases hcon : leadsWith sep (c :: a' ++ b) = true
      · exfalso
        by_cases hle : sep.length ≤ (c :: a').length
        · have htake : (c :: a' ++ b).take sep.length = (c :: a').take sep.length :=
            take_append_le sep.length (c :: a') b hle
          have : leadsWith sep (c :: a') = true := by
            rw [leadsWith_take]
            rw [← htake, ← leadsWith_take]
            exact hcon
          rw [this] at hlw
          exact Bool.noConfusion hlw
        · push_neg at hle
          have hsplit := leadsWith_split (x := c :: a') (y := b) hcon (Nat.le_of_lt hle)
          have hs2ne : sep.drop (c :: a').length ≠ [] := by
            intro h0
            have hlen := congrArg List.length h0
            rw [List.length_drop, List.length_nil] at hlen
            omega
          rcases hx (c :: a') (sep.drop (c :: a').length) hsplit.1 (by simp) hs2ne with
            h | h
          · rw [hsplit.2] at h; exact Bool.noConfusion h
          · rw [endsIn_self] at h; exact Bool.noConfusion h
      · simpa using hcon
    show splitFirst sep (c :: (a' ++ b)) = none
    rw [splitFirst, if_neg (by simp [hcond])]
    have hrest : splitFirst sep (a' ++ b) = none := by
      refine ih b hsep ha' hb ?_
      intro s1 s2 hseq h1 h2
      rcases hx s1 s2 hseq h1 h2 with h | h
      · exact Or.inl h
      · refine Or.inr ?_
        cases he : endsIn s1 a' with
        | false => rfl
        | true => rw [endsIn_cons c he] at h; exact Bool.noConfusion h
    rw [hrest]
    rfl

/-- The proper splits of the three-dash separator. -/
theorem dash3_split_shape (s1 s2 : List Char)
    (heq : ("---".data : List Char) = s1 ++ s2) (h1 : s1 ≠ []) (h2 : s2 ≠ []) :
    (s1 = ['-'] ∧ s2 = ['-', '-']) ∨ (s1 = ['-', '-'] ∧ s2 = ['-']) := by
  rw [show ("---".data : List Char) = ['-', '-', '-'] from rfl] at heq
  cases s1 with
  | nil => exact absurd rfl h1
  | cons c1 r1 =>
    rw [List.cons_append] at heq
    injection heq with hc1 heq
    cases r1 with
    | nil =>
      left
      refine ⟨by rw [← hc1], ?_⟩
      simpa using heq.symm
    | cons c2 r2 =>
      rw [List.cons_append] at heq
      injection heq with hc2 heq
      cases r2 with
      | nil =>
        right
        refine ⟨by rw [← hc1, ← hc2], ?_⟩
        simpa using heq.symm
      | cons c3 r3 =>
        rw [List.cons_append] at heq
        injection heq with hc3 heq
        exfalso
        rcases List.append_eq_nil.mp heq.symm with ⟨_, hs2⟩
        exact h2 hs2

/-- Glue lemma for the three-dash separator when the right part cannot
start an occurrence (its head is not a dash). -/
theorem leadsWith_head_false {b : List Char} {x : Char} (s2' : List Char)
    (hh : leadsWith [x] b = false) : leadsWith (x :: s2') b = false := by
  cases b with
  | nil => rfl
  | cons y ys =>
    rw [leadsWith] at hh ⊢
    cases hx : (x == y) with
    | false => rfl
    | true =>
      rw [hx] at hh
      rw [show leadsWith ([] : List Char) ys = true from rfl] at hh
      simp at hh

theorem noDash3_glue_head (a b : List Char)
    (ha : splitFirst "---".data a = none) (hb : splitFirst "---".data b = none)
    (hh : leadsWith ['-'] b = false) :
    splitFirst "---".data (a ++ b) = none := by
  refine splitFirst_append_none "---".data a b (by decide) ha hb ?_
  intro s1 s2 heq h1 h2
  left
  rcases dash3_split_shape s1 s2 heq h1 h2 with ⟨_, rfl⟩ | ⟨_, rfl⟩
  · exact leadsWith_head_false ['-'] hh
  · exact leadsWith_head_false [] hh

/-- Glue lemma for the three-dash separator when the left part cannot end
an occurrence (its last character is not a dash). -/
theorem noDash3_glue_last (a b : List Char)
    (ha : splitFirst "---".data a = none) (hb : splitFirst "---".data b = none)
    (hl : endsIn ['-'] a = false) :
    splitFirst "---".data (a ++ b) = none := by
  refine splitFirst_append_none "---".data a b (by decide) ha hb ?_
  intro s1 s2 heq h1 h2
  right
  rcases dash3_split_shape s1 s2 heq h1 h2 with ⟨rfl, _⟩ | ⟨rfl, _⟩
  · exact hl
  · rw [endsIn] at hl ⊢
    rw [show (['-', '-'] : List Char).reverse = ['-', '-'] from rfl]
    rw [show (['-'] : List Char).reverse = ['-'] from rfl] at hl
    exact leadsWith_head_false ['-'] hl

/-- Splitting on a character distributes over a separator-free chunk. -/
theorem splitCh_append_cons (c : Char) (a b : List Char) (ha : c ∉ a) :
    splitCh c (a ++ c :: b) = a :: splitCh c b := by
  induction a with
  | nil =>
    rw [List.nil_append, splitCh, if_pos (by simp)]
  | cons x a' ih =>
    have hx : (x == c) = false := by
      simp only [beq_eq_false_iff_ne, ne_eq]
      intro hxc
      exact ha (by simp [hxc])
    rw [List.cons_append, splitCh, if_neg (by simp [hx]),
      ih (fun hmem => ha (by simp [hmem]))]
    rfl

theorem not_mem_append_char {a : Char} {x y : List Char} (hx : a ∉ x) (hy : a ∉ y) :
    a ∉ x ++ y := by
  intro h
  rcases List.mem_append.mp h with h | h
  · exact hx h
  · exact hy h

/-- A character is "JSON-clean" when `json.dumps` serialises it verbatim. -/
theorem clean_parts {c : Char}
    (h : (c == '"' || c == '\\' || c == '\n' || c == '\t' || c == '\r') = false) :
    (c == '"') = false ∧ (c == '\\') = false ∧ (c == '\n') = false ∧
      (c == '\t') = false ∧ (c == '\r') = false := by
  simp only [Bool.or_eq_false_iff] at h
  exact ⟨h.1.1.1.1, h.1.1.1.2, h.1.1.2, h.1.2, h.2⟩

theorem escCh_clean {c : Char}
    (h : (c == '"' || c == '\\' || c == '\n' || c == '\t' || c == '\r') = false) :
    escCh c = [c] := by
  obtain ⟨h1, h2, h3, h4, h5⟩ := clean_parts h
  rw [escCh, if_neg (by simp [h1]), if_neg (by simp [h2]), if_neg (by simp [h3]),
    if_neg (by simp [h4]), if_neg (by simp [h5])]

theorem flatten_escCh_clean {w : List Char}
    (h : ∀ c ∈ w, (c == '"' || c == '\\' || c == '\n' || c == '\t' || c == '\r') = false) :
    (w.map escCh).flatten = w := by
  induction w with
  | nil => rfl
  | cons c w' ih =>
    rw [List.map_cons, List.flatten_cons, escCh_clean (h c (by simp)),
      ih (fun d hd => h d (by simp [hd]))]
    rfl

theorem jsonQuote_clean {w : List Char}
    (h : ∀ c ∈ w, (c == '"' || c == '\\' || c == '\n' || c == '\t' || c == '\r') = false) :
    jsonQuote w = '"' :: (w ++ ['"']) := by
  rw [jsonQuote, flatten_escCh_clean h]
  simp

/-- Scanning a clean string body inside the JSON array parser. -/
theorem jsonArrAux_string (w : List Char) :
    ∀ (rest cur : List Char) (acc : List String),
      (∀ c ∈ w, (c == '"' || c == '\\' || c == '\n' || c == '\t' || c == '\r') = false) →
      jsonArrAux (w ++ '"' :: rest) 1 cur acc
        = jsonArrAux rest 3 [] (⟨cur.reverse ++ w⟩ :: acc) := by
  induction w with
  | nil =>
    intro rest cur acc _
    rw [List.nil_append, jsonArrAux]
    simp
  | cons c w' ih =>
    intro rest cur acc h
    obtain ⟨h1, h2, _, _, _⟩ := clean_parts (h c (by simp))
    rw [List.cons_append, jsonArrAux]
    simp only [show ((1 : Nat) == 0) = false from rfl, Bool.false_eq_true, if_false,
      show ((1 : Nat) == 1) = true from rfl, if_true, h1, h2]
    rw [ih rest (c :: cur) acc (fun d hd => h d (by simp [hd]))]
    congr 2
    apply strExt
    simp

/-- Scanning the full body of a canonically serialised array of clean
strings. -/
theorem jsonArrAux_items (l : List (List Char)) :
    ∀ (acc : List String),
      (∀ w ∈ l, ∀ c ∈ w,
        (c == '"' || c == '\\' || c == '\n' || c == '\t' || c == '\r') = false) →
      l ≠ [] →
      jsonArrAux (jsonArrBody l ++ [']']) 0 [] acc
        = some (acc.reverse ++ l.map (fun w => (⟨w⟩ : String))) := by
  induction l with
  | nil => intro acc _ hne; exact absurd rfl hne
  | cons w l' ih =>
    intro acc h _
    have hw := h w (by simp)
    cases l' with
    | nil =>
      rw [show jsonArrBody [w] = jsonQuote w from rfl, jsonQuote_clean hw]
      have hsh : ((('"' :: (w ++ ['"'])) ++ [']']) : List Char)
          = '"' :: (w ++ '"' :: [']']) := by simp
      rw [hsh]
      rw [show jsonArrAux ('"' :: (w ++ '"' :: [']'])) 0 [] acc
          = jsonArrAux (w ++ '"' :: [']']) 1 [] acc from rfl]
      rw [jsonArrAux_string w [']'] [] acc hw]
      rw [show jsonArrAux [']'] 3 [] ((⟨List.reverse [] ++ w⟩ : String) :: acc)
          = some ((((⟨List.reverse [] ++ w⟩ : String)) :: acc)).reverse from rfl]
      simp
    | cons v l'' =>
      rw [show jsonArrBody (w :: v :: l'')
          = jsonQuote w ++ ',' :: ' ' :: jsonArrBody (v :: l'') from rfl,
        jsonQuote_clean hw]
      have hsh : ((('"' :: (w ++ ['"'])) ++ ',' :: ' ' :: jsonArrBody (v :: l'')) ++ [']']
          : List Char)
          = '"' :: (w ++ '"' :: (',' :: ' ' :: (jsonArrBody (v :: l'') ++ [']']))) := by
        simp
      rw [hsh]
      rw [show jsonArrAux
            ('"' :: (w ++ '"' :: (',' :: ' ' :: (jsonArrBody (v :: l'') ++ [']'])))) 0 [] acc
          = jsonArrAux (w ++ '"' :: (',' :: ' ' :: (jsonArrBody (v :: l'') ++ [']']))) 1 [] acc
          from rfl]
      rw [jsonArrAux_string w (',' :: ' ' :: (jsonArrBody (v :: l'') ++ [']'])) [] acc hw]
      rw [show jsonArrAux (',' :: ' ' :: (jsonArrBody (v :: l'') ++ [']'])) 3 []
            ((⟨List.reverse [] ++ w⟩ : String) :: acc)
          = jsonArrAux (jsonArrBody (v :: l'') ++ [']']) 0 []
            ((⟨List.reverse [] ++ w⟩ : String) :: acc) from rfl]
      rw [ih ((⟨List.reverse [] ++ w⟩ : String) :: acc)
        (fun u hu => h u (by simp [hu])) (by simp)]
      simp

/-- Round trip: decoding the canonical serialisation of a list of clean
strings recovers the list. -/
theorem jsonLoads_dumps (l : List String)
    (h : ∀ t ∈ l, ∀ c ∈ t.data,
      (c == '"' || c == '\\' || c == '\n' || c == '\t' || c == '\r') = false) :
    jsonLoadsList (jsonDumps l) = some l := by
  cases l with
  | nil => rfl
  | cons t l' =>
    have hmatch : ∀ X : List Char,
        jsonLoadsList ⟨'[' :: '"' :: X⟩ = jsonArrAux ('"' :: X) 0 [] [] := fun X => rfl
    have hshape : ∃ X, jsonArrBody ((t :: l').map String.data) = '"' :: X := by
      cases l' with
      | nil =>
        refine ⟨(t.data.map escCh).flatten ++ ['"'], ?_⟩
        rw [show (List.map String.data [t]) = [t.data] from rfl]
        rw [show jsonArrBody [t.data] = jsonQuote t.data from rfl, jsonQuote]
        simp
      | cons v l'' =>
        refine ⟨((t.data.map escCh).flatten ++ ['"'])
            ++ ',' :: ' ' :: jsonArrBody ((v :: l'').map String.data), ?_⟩
        rw [show (List.map String.data (t :: v :: l''))
            = t.data :: (List.map String.data (v :: l'')) from rfl]
        rw [show jsonArrBody (t.data :: (List.map String.data (v :: l'')))
            = jsonQuote t.data ++ ',' :: ' ' :: jsonArrBody (List.map String.data (v :: l''))
            from rfl, jsonQuote]
        simp
    obtain ⟨X, hX⟩ := hshape
    have h1 : jsonLoadsList (jsonDumps (t :: l'))
        = jsonArrAux ('"' :: (X ++ [']'])) 0 [] [] := by
      have hdata : jsonDumps (t :: l') = ⟨'[' :: '"' :: (X ++ [']'])⟩ := by
        apply strExt
        rw [show (jsonDumps (t :: l')).data
            = '[' :: jsonArrBody ((t :: l').map String.data) ++ [']'] from rfl, hX]
        simp
      rw [hdata, hmatch]
    have h2 : jsonArrAux ('"' :: (X ++ [']'])) 0 [] []
        = jsonArrAux (jsonArrBody ((t :: l').map String.data) ++ [']']) 0 [] [] := by
      refine congrArg (fun z => jsonArrAux z 0 [] []) ?_
      rw [hX]
      simp
    rw [h1, h2, jsonArrAux_items ((t :: l').map String.data) []
      (by
        intro w hw
        rcases List.mem_map.mp hw with ⟨u, hu, rfl⟩
        exact h u hu)
      (by simp)]
    simp only [List.reverse_nil, List.nil_append, List.map_map]
    rw [show (String.mk ∘ String.data) = id from funext fun x => rfl, List.map_id]

/-- `renderTags` on a field that is not already bracketed is exactly the
canonical serialisation of the comma-split tag list. -/
theorem renderTags_dumps (pt : String) (h : pyStartsWith pt "[" = false) :
    Directive.renderTags pt = jsonDumps (splitStripList ',' pt) := by
  by_cases hne : pt = ""
  · subst hne
    rfl
  · rw [Directive.renderTags, if_pos ⟨hne, h⟩]

theorem stripL_cons_nonws {c : Char} {l : List Char} (h : isWS c = false) :
    stripLCh (c :: l) = c :: l := by
  rw [stripLCh, List.dropWhile_cons, h]
  rfl

theorem stripR_head_nonws {b : List Char} {c : Char} {r : List Char}
    (hb : stripRCh b = b) (hbrev : b.reverse = c :: r) : isWS c = false := by
  have h1 : b.reverse.dropWhile isWS = b.reverse := by
    have h2 := congrArg List.reverse hb
    rw [stripRCh, List.reverse_reverse] at h2
    exact h2
  rw [hbrev] at h1
  by_contra hc
  rw [Bool.not_eq_false] at hc
  rw [List.dropWhile_cons, hc] at h1
  simp only [if_true] at h1
  have hle : ∀ (p : Char → Bool) (u : List Char), (u.dropWhile p).length ≤ u.length := by
    intro p u
    induction u with
    | nil => simp
    | cons x xs ih =>
      rw [List.dropWhile_cons]
      by_cases hp : p x = true
      · rw [if_pos hp]; exact Nat.le_succ_of_le ih
      · rw [if_neg hp]
  have := hle isWS r
  rw [h1] at this
  simp at this

/-- Right-stripping leaves a string alone when its final segment is a
non-empty right-clean chunk. -/
theorem stripR_append (a b : List Char) (hb : stripRCh b = b) (hbne : b ≠ []) :
    stripRCh (a ++ b) = a ++ b := by
  cases hbrev : b.reverse with
  | nil =>
    exfalso
    exact hbne (by simpa using congrArg List.reverse hbrev)
  | cons c r =>
    have hws : isWS c = false := stripR_head_nonws hb hbrev
    have hfix : (a ++ b).reverse.dropWhile isWS = (a ++ b).reverse := by
      rw [List.reverse_append, hbrev, List.cons_append, List.dropWhile_cons, hws]
      rfl
    rw [stripRCh, hfix, List.reverse_reverse]

theorem str_data_ne_nil {v : String} (h : v ≠ "") : v.data ≠ [] := by
  intro h0
  exact h (strExt h0)

theorem stripL_cons_ws {c : Char} {l : List Char} (h : isWS c = true) :
    stripLCh (c :: l) = stripLCh l := by
  rw [stripLCh, List.dropWhile_cons, h]
  rfl

theorem afterColon_keyval (K v : List Char) (hK : splitFirst [':'] K = none) :
    Directive.afterColon ⟨K ++ ':' :: v⟩ = ⟨v⟩ := by
  rw [Directive.afterColon]
  rw [show ((⟨K ++ ':' :: v⟩ : String)).data = K ++ ':' :: v from rfl]
  rw [show (K ++ ':' :: v : List Char) = K ++ [':'] ++ v from by simp]
  rw [splitFirst_append [':'] K v (by decide)
    (by rw [show ([':'] : List Char).dropLast = [] from rfl, List.append_nil]; exact hK)]

theorem jsonDumps_stripL (l : List String) :
    stripLCh (jsonDumps l).data = (jsonDumps l).data := by
  rw [show (jsonDumps l).data = '[' :: (jsonArrBody (l.map String.data) ++ [']']) from by
      rw [show (jsonDumps l).data
          = ('[' :: jsonArrBody (l.map String.data)) ++ [']'] from rfl]
      simp]
  exact stripL_cons_nonws (by decide)

theorem jsonDumps_stripR (l : List String) :
    stripRCh (jsonDumps l).data = (jsonDumps l).data := by
  rw [show (jsonDumps l).data = ('[' :: jsonArrBody (l.map String.data)) ++ [']'] from rfl]
  exact stripR_append _ _ (by decide) (by decide)

theorem jsonDumps_ne_empty (l : List String) : jsonDumps l ≠ "" := by
  intro h
  have h2 := congrArg String.data h
  rw [show (jsonDumps l).data = ('[' :: jsonArrBody (l.map String.data)) ++ [']'] from rfl]
    at h2
  simp at h2

/-- The frontmatter scan line for the `patterndomain` key recovers a
clean value verbatim. -/
theorem statLine_domain (st : String × String × List String) (v : String)
    (hL : stripLCh v.data = v.data) (hR : stripRCh v.data = v.data) (hne : v ≠ "") :
    Directive.statLine st ⟨"patterndomain: ".data ++ v.data⟩ = (v, st.2.1, st.2.2) := by
  have hvd := str_data_ne_nil hne
  have hsl : stripLCh ("patterndomain: ".data ++ v.data)
      = "patterndomain: ".data ++ v.data := by
    rw [show ("patterndomain: ".data : List Char) = 'p' :: "atterndomain: ".data from rfl,
      List.cons_append]
    exact stripL_cons_nonws (by decide)
  have hsr : stripRCh ("patterndomain: ".data ++ v.data)
      = "patterndomain: ".data ++ v.data := stripR_append _ _ hR hvd
  have hstrip : pyStrip ⟨"patterndomain: ".data ++ v.data⟩
      = ⟨"patterndomain: ".data ++ v.data⟩ := by
    rw [pyStrip, show ((⟨"patterndomain: ".data ++ v.data⟩ : String)).data
        = "patterndomain: ".data ++ v.data from rfl, hsl, hsr]
  have hpre : pyStartsWith ⟨"patterndomain: ".data ++ v.data⟩ "patterndomain:" = true := by
    rw [pyStartsWith, show ((⟨"patterndomain: ".data ++ v.data⟩ : String)).data
        = "patterndomain: ".data ++ v.data from rfl]
    rw [show ("patterndomain: ".data : List Char)
        = "patterndomain:".data ++ [' '] from rfl, List.append_assoc]
    exact leadsWith_append_self _ _
  have hac : Directive.afterColon ⟨"patterndomain: ".data ++ v.data⟩ = ⟨' ' :: v.data⟩ := by
    rw [show ("patterndomain: ".data ++ v.data : List Char)
        = "patterndomain".data ++ ':' :: (' ' :: v.data) from by
          rw [show ("patterndomain: ".data : List Char)
              = "patterndomain".data ++ ':' :: ' ' :: [] from rfl]
          simp]
    exact afterColon_keyval "patterndomain".data (' ' :: v.data) (by decide)
  have hps : pyStrip ⟨' ' :: v.data⟩ = v := by
    rw [pyStrip, show ((⟨' ' :: v.data⟩ : String)).data = ' ' :: v.data from rfl]
    rw [stripL_cons_ws (by decide), hL, hR]
  simp only [Directive.statLine]
  rw [hstrip, if_pos hpre, hac, hps]

/-- The frontmatter scan line for the `maturationstage` key. -/
theorem statLine_stage (st : String × String × List String) (v : String)
    (hL : stripLCh v.data = v.data) (hR : stripRCh v.data = v.data) (hne : v ≠ "") :
    Directive.statLine st ⟨"maturationstage: ".data ++ v.data⟩ = (st.1, v, st.2.2) := by
  have hvd := str_data_ne_nil hne
  have hsl : stripLCh ("maturationstage: ".data ++ v.data)
      = "maturationstage: ".data ++ v.data := by
    rw [show ("maturationstage: ".data : List Char) = 'm' :: "aturationstage: ".data from rfl,
      List.cons_append]
    exact stripL_cons_nonws (by decide)
  have hsr : stripRCh ("maturationstage: ".data ++ v.data)
      = "maturationstage: ".data ++ v.data := stripR_append _ _ hR hvd
  have hstrip : pyStrip ⟨"maturationstage: ".data ++ v.data⟩
      = ⟨"maturationstage: ".data ++ v.data⟩ := by
    rw [pyStrip, show ((⟨"maturationstage: ".data ++ v.data⟩ : String)).data
        = "maturationstage: ".data ++ v.data from rfl, hsl, hsr]
  have hno1 : pyStartsWith ⟨"maturationstage: ".data ++ v.data⟩ "patterndomain:" = false := by
    rw [pyStartsWith, show ((⟨"maturationstage: ".data ++ v.data⟩ : String)).data
        = "maturationstage: ".data ++ v.data from rfl]
    rw [show ("maturationstage: ".data : List Char) = 'm' :: "aturationstage: ".data from rfl,
      List.cons_append]
    rfl
  have hpre : pyStartsWith ⟨"maturationstage: ".data ++ v.data⟩ "maturationstage:" = true := by
    rw [pyStartsWith, show ((⟨"maturationstage: ".data ++ v.data⟩ : String)).data
        = "maturationstage: ".data ++ v.data from rfl]
    rw [show ("maturationstage: ".data : List Char)
        = "maturationstage:".data ++ [' '] from rfl, List.append_assoc]
    exact leadsWith_append_self _ _
  have hac : Directive.afterColon ⟨"maturationstage: ".data ++ v.data⟩ = ⟨' ' :: v.data⟩ := by
    rw [show ("maturationstage: ".data ++ v.data : List Char)
        = "maturationstage".data ++ ':' :: (' ' :: v.data) from by
          rw [show ("maturationstage: ".data : List Char)
              = "maturationstage".data ++ ':' :: ' ' :: [] from rfl]
          simp]
    exact afterColon_keyval "maturationstage".data (' ' :: v.data) (by decide)
  have hps : pyStrip ⟨' ' :: v.data⟩ = v := by
    rw [pyStrip, show ((⟨' ' :: v.data⟩ : String)).data = ' ' :: v.data from rfl]
    rw [stripL_cons_ws (by decide), hL, hR]
  simp only [Directive.statLine]
  rw [hstrip, if_neg (by rw [hno1]; simp), if_pos hpre, hac, hps]

/-- The frontmatter scan line for the `patterntags` key decodes the
canonical serialisation back to the tag list. -/
theorem statLine_tags (st : String × String × List String) (tl : List String)
    (hjson : jsonLoadsList (jsonDumps tl) = some tl) :
    Directive.statLine st ⟨"patterntags: ".data ++ (jsonDumps tl).data⟩
      = (st.1, st.2.1, tl) := by
  have hvd : (jsonDumps tl).data ≠ [] := str_data_ne_nil (jsonDumps_ne_empty tl)
  have hsl : stripLCh ("patterntags: ".data ++ (jsonDumps tl).data)
      = "patterntags: ".data ++ (jsonDumps tl).data := by
    rw [show ("patterntags: ".data : List Char) = 'p' :: "atterntags: ".data from rfl,
      List.cons_append]
    exact stripL_cons_nonws (by decide)
  have hsr : stripRCh ("patterntags: ".data ++ (jsonDumps tl).data)
      = "patterntags: ".data ++ (jsonDumps tl).data :=
    stripR_append _ _ (jsonDumps_stripR tl) hvd
  have hstrip : pyStrip ⟨"patterntags: ".data ++ (jsonDumps tl).data⟩
      = ⟨"patterntags: ".data ++ (jsonDumps tl).data⟩ := by
    rw [pyStrip, show ((⟨"patterntags: ".data ++ (jsonDumps tl).data⟩ : String)).data
        = "patterntags: ".data ++ (jsonDumps tl).data from rfl, hsl, hsr]
  have hno1 : pyStartsWith ⟨"patterntags: ".data ++ (jsonDumps tl).data⟩
      "patterndomain:" = false := by
    rw [pyStartsWith, show ((⟨"patterntags: ".data ++ (jsonDumps tl).data⟩ : String)).data
        = "patterntags: ".data ++ (jsonDumps tl).data from rfl]
    rw [show ("patterntags: ".data : List Char) = 'p' :: "atterntags: ".data from rfl,
      List.cons_append]
    rfl
  have hno2 : pyStartsWith ⟨"patterntags: ".data ++ (jsonDumps tl).data⟩
      "maturationstage:" = false := by
    rw [pyStartsWith, show ((⟨"patterntags: ".data ++ (jsonDumps tl).data⟩ : String)).data
        = "patterntags: ".data ++ (jsonDumps tl).data from rfl]
    rw [show ("patterntags: ".data : List Char) = 'p' :: "atterntags: ".data from rfl,
      List.cons_append]
    rfl
  have hpre : pyStartsWith ⟨"patterntags: ".data ++ (jsonDumps tl).data⟩
      "patterntags:" = true := by
    rw [pyStartsWith, show ((⟨"patterntags: ".data ++ (jsonDumps tl).data⟩ : String)).data
        = "patterntags: ".data ++ (jsonDumps tl).data from rfl]
    rw [show ("patterntags: ".data : List Char)
        = "patterntags:".data ++ [' '] from rfl, List.append_assoc]
    exact leadsWith_append_self _ _
  have hac : Directive.afterColon ⟨"patterntags: ".data ++ (jsonDumps tl).data⟩
      = ⟨' ' :: (jsonDumps tl).data⟩ := by
    rw [show ("patterntags: ".data ++ (jsonDumps tl).data : List Char)
        = "patterntags".data ++ ':' :: (' ' :: (jsonDumps tl).data) from by
          rw [show ("patterntags: ".data : List Char)
              = "patterntags".data ++ ':' :: ' ' :: [] from rfl]
          simp]
    exact afterColon_keyval "patterntags".data (' ' :: (jsonDumps tl).data) (by decide)
  have hps : pyStrip ⟨' ' :: (jsonDumps tl).data⟩ = jsonDumps tl := by
    rw [pyStrip, show ((⟨' ' :: (jsonDumps tl).data⟩ : String)).data
        = ' ' :: (jsonDumps tl).data from rfl]
    rw [stripL_cons_ws (by decide), jsonDumps_stripL tl, jsonDumps_stripR tl]
  simp only [Directive.statLine]
  rw [hstrip, if_neg (by rw [hno1]; simp), if_neg (by rw [hno2]; simp), if_pos hpre, hac, hps,
    hjson]

/-- The `  analysis_date:` line touches none of the scanned keys. -/
theorem statLine_analysis (st : String × String × List String) (v : String)
    (hL : stripLCh v.data = v.data) (hR : stripRCh v.data = v.data) (hne : v ≠ "") :
    Directive.statLine st ⟨"  analysis_date: ".data ++ v.data⟩ = st := by
  have hvd := str_data_ne_nil hne
  have hsl : stripLCh ("  analysis_date: ".data ++ v.data)
      = "analysis_date: ".data ++ v.data := by
    rw [show ("  analysis_date: ".data : List Char)
        = ' ' :: ' ' :: "analysis_date: ".data from rfl, List.cons_append, List.cons_append]
    rw [stripL_cons_ws (by decide), stripL_cons_ws (by decide)]
    rw [show ("analysis_date: ".data : List Char) = 'a' :: "nalysis_date: ".data from rfl,
      List.cons_append]
    exact stripL_cons_nonws (by decide)
  have hsr : stripRCh ("analysis_date: ".data ++ v.data)
      = "analysis_date: ".data ++ v.data := stripR_append _ _ hR hvd
  have hstrip : pyStrip ⟨"  analysis_date: ".data ++ v.data⟩
      = ⟨"analysis_date: ".data ++ v.data⟩ := by
    rw [pyStrip, show ((⟨"  analysis_date: ".data ++ v.data⟩ : String)).data
        = "  analysis_date: ".data ++ v.data from rfl, hsl, hsr]
  have hhead : ∀ p : String, leadsWith p.data ("analysis_date: ".data ++ v.data)
        = leadsWith p.data ('a' :: ("nalysis_date: ".data ++ v.data)) := by
    intro p
    rw [show ("analysis_date: ".data : List Char) = 'a' :: "nalysis_date: ".data from rfl,
      List.cons_append]
  have hno1 : pyStartsWith ⟨"analysis_date: ".data ++ v.data⟩ "patterndomain:" = false := by
    rw [pyStartsWith, show ((⟨"analysis_date: ".data ++ v.data⟩ : String)).data
        = "analysis_date: ".data ++ v.data from rfl, hhead]
    rfl
  have hno2 : pyStartsWith ⟨"analysis_date: ".data ++ v.data⟩ "maturationstage:" = false := by
    rw [pyStartsWith, show ((⟨"analysis_date: ".data ++ v.data⟩ : String)).data
        = "analysis_date: ".data ++ v.data from rfl, hhead]
    rfl
  have hno3 : pyStartsWith ⟨"analysis_date: ".data ++ v.data⟩ "patterntags:" = false := by
    rw [pyStartsWith, show ((⟨"analysis_date: ".data ++ v.data⟩ : String)).data
        = "analysis_date: ".data ++ v.data from rfl, hhead]
    rfl
  simp only [Directive.statLine]
  rw [hstrip, if_neg (by rw [hno1]; simp), if_neg (by rw [hno2]; simp), if_neg (by rw [hno3]; simp)]

/-- The `import_date:` line touches none of the scanned keys. -/
theorem statLine_import (st : String × String × List String) (v : String)
    (hL : stripLCh v.data = v.data) (hR : stripRCh v.data = v.data) (hne : v ≠ "") :
    Directive.statLine st ⟨"import_date: ".data ++ v.data⟩ = st := by
  have hvd := str_data_ne_nil hne
  have hsl : stripLCh ("import_date: ".data ++ v.data)
      = "import_date: ".data ++ v.data := by
    rw [show ("import_date: ".data : List Char) = 'i' :: "mport_date: ".data from rfl,
      List.cons_append]
    exact stripL_cons_nonws (by decide)
  have hsr : stripRCh ("import_date: ".data ++ v.data)
      = "import_date: ".data ++ v.data := stripR_append _ _ hR hvd
  have hstrip : pyStrip ⟨"import_date: ".data ++ v.data⟩
      = ⟨"import_date: ".data ++ v.data⟩ := by
    rw [pyStrip, show ((⟨"import_date: ".data ++ v.data⟩ : String)).data
        = "import_date: ".data ++ v.data from rfl, hsl, hsr]
  have hhead : ∀ p : String, leadsWith p.data ("import_date: ".data ++ v.data)
        = leadsWith p.data ('i' :: ("mport_date: ".data ++ v.data)) := by
    intro p
    rw [show ("import_date: ".data : List Char) = 'i' :: "mport_date: ".data from rfl,
      List.cons_append]
  have hno1 : pyStartsWith ⟨"import_date: ".data ++ v.data⟩ "patterndomain:" = false := by
    rw [pyStartsWith, show ((⟨"import_date: ".data ++ v.data⟩ : String)).data
        = "import_date: ".data ++ v.data from rfl, hhead]
    rfl
  have hno2 : pyStartsWith ⟨"import_date: ".data ++ v.data⟩ "maturationstage:" = false := by
    rw [pyStartsWith, show ((⟨"import_date: ".data ++ v.data⟩ : String)).data
        = "import_date: ".data ++ v.data from rfl, hhead]
    rfl
  have hno3 : pyStartsWith ⟨"import_date: ".data ++ v.data⟩ "patterntags:" = false := by
    rw [pyStartsWith, show ((⟨"import_date: ".data ++ v.data⟩ : String)).data
        = "import_date: ".data ++ v.data from rfl, hhead]
    rfl
  simp only [Directive.statLine]
  rw [hstrip, if_neg (by rw [hno1]; simp), if_neg (by rw [hno2]; simp), if_neg (by rw [hno3]; simp)]

theorem statLine_noop_empty (st : String × String × List String) :
    Directive.statLine st "" = st := rfl

theorem statLine_noop_c5 (st : String × String × List String) :
    Directive.statLine st ⟨"validationstatus: singleobservation".data⟩ = st := rfl

theorem statLine_noop_c6 (st : String × String × List String) :
    Directive.statLine st ⟨"instructionalreadiness: internalreference".data⟩ = st := rfl

theorem statLine_noop_c7 (st : String × String × List String) :
    Directive.statLine st ⟨"temporal_context:".data⟩ = st := rfl

theorem statLine_noop_c8 (st : String × String × List String) :
    Directive.statLine st ⟨"  experience_date: ''".data⟩ = st := rfl

theorem statLine_noop_c10 (st : String × String × List String) :
    Directive.statLine st ⟨"provenance: personaldocumentation".data⟩ = st := rfl

theorem statLine_noop_c11 (st : String × String × List String) :
    Directive.statLine st ⟨"source: notebooklm".data⟩ = st := rfl

/-- The canonical serialisation of clean strings contains no newline. -/
theorem jsonArrBody_no_nl (l : List (List Char))
    (h : ∀ w ∈ l, ∀ c ∈ w,
      (c == '"' || c == '\\' || c == '\n' || c == '\t' || c == '\r') = false) :
    ('\n' : Char) ∉ jsonArrBody l := by
  induction l with
  | nil => simp [jsonArrBody]
  | cons w ws ih =>
    have hmemw : ('\n' : Char) ∉ w := by
      intro hmem
      have hcl := clean_parts (h w (by simp) '\n' hmem)
      have h3 := hcl.2.2.1
      simp at h3
    cases ws with
    | nil =>
      rw [show jsonArrBody [w] = jsonQuote w from rfl, jsonQuote_clean (h w (by simp))]
      intro hmem
      simp only [List.mem_cons, List.mem_append, List.mem_singleton] at hmem
      rcases hmem with h1 | h1 | h1
      · exact absurd h1 (by decide)
      · exact hmemw h1
      · exact absurd h1 (by decide)
    | cons v vs =>
      rw [show jsonArrBody (w :: v :: vs)
          = jsonQuote w ++ ',' :: ' ' :: jsonArrBody (v :: vs) from rfl,
        jsonQuote_clean (h w (by simp))]
      intro hmem
      simp only [List.cons_append, List.append_assoc, List.mem_cons, List.mem_append,
        List.mem_singleton] at hmem
      rcases hmem with h1 | h1 | h1 | h1 | h1 | h1
      · exact absurd h1 (by decide)
      · exact hmemw h1
      · exact absurd h1 (by decide)
      · exact absurd h1 (by decide)
      · exact absurd h1 (by decide)
      · rcases h1 with h1 | h1
        · exact absurd h1 (by decide)
        · exact ih (fun u hu => h u (by simp [hu])) h1

theorem jsonDumps_no_nl (l : List String)
    (h : ∀ t ∈ l, ∀ c ∈ t.data,
      (c == '"' || c == '\\' || c == '\n' || c == '\t' || c == '\r') = false) :
    ('\n' : Char) ∉ (jsonDumps l).data := by
  rw [show (jsonDumps l).data = ('[' :: jsonArrBody (l.map String.data)) ++ [']'] from rfl]
  intro hmem
  simp only [List.cons_append, List.mem_cons, List.mem_append, List.mem_singleton] at hmem
  rcases hmem with h1 | h1 | h1
  · exact absurd h1 (by decide)
  · exact jsonArrBody_no_nl (l.map String.data)
      (by
        intro w hw
        rcases List.mem_map.mp hw with ⟨u, hu, rfl⟩
        exact h u hu) h1
  · exact absurd h1 (by decide)

/-- A cons cell whose head cannot start an occurrence preserves
occurrence-freeness. -/
theorem splitFirst_cons_of (sep : List Char) (c : Char) (cs : List Char)
    (hlw : leadsWith sep (c :: cs) = false) (h : splitFirst sep cs = none) :
    splitFirst sep (c :: cs) = none := by
  rw [splitFirst, if_neg (by rw [hlw]; simp), h]
  rfl

/-- Occurrence-freeness of a header segment `lit ++ (sym ++ '\n' :: rest)`
where the literal key prefix does not end in a dash. -/
theorem noDash3_seg (lit sym rest : List Char)
    (hlit : splitFirst "---".data lit = none)
    (hlite : endsIn ['-'] lit = false)
    (hsym : splitFirst "---".data sym = none)
    (hrest : splitFirst "---".data rest = none) :
    splitFirst "---".data (lit ++ (sym ++ '\n' :: rest)) = none := by
  have h1 : splitFirst "---".data ('\n' :: rest) = none :=
    splitFirst_cons_of _ _ _ rfl hrest
  have h2 : splitFirst "---".data (sym ++ '\n' :: rest) = none :=
    noDash3_glue_head sym _ hsym h1 rfl
  exact noDash3_glue_last lit _ hlit h2 hlite

/-- Occurrence-freeness of a constant header line `lit ++ '\n' :: rest`. -/
theorem noDash3_seg0 (lit rest : List Char)
    (hlit : splitFirst "---".data lit = none)
    (hlite : endsIn ['-'] lit = false)
    (hrest : splitFirst "---".data rest = none) :
    splitFirst "---".data (lit ++ '\n' :: rest) = none :=
  noDash3_glue_last lit _ hlit (splitFirst_cons_of _ _ _ rfl hrest) hlite

theorem pyStartsWith_mk_append (p : String) (t : List Char) :
    pyStartsWith ⟨p.data ++ t⟩ p = true := by
  rw [pyStartsWith]
  exact leadsWith_append_self _ _

/-- `s.split(sep, 2)` when both occurrences are known. -/
theorem pySplit2_eq (sep s : String) (x r y z : List Char)
    (h1 : splitFirst sep.data s.data = some (x, r))
    (h2 : splitFirst sep.data r = some (y, z)) :
    pySplit2 sep s = [⟨x⟩, ⟨y⟩, ⟨z⟩] := by
  simp only [pySplit2, h1, h2]

/-- `content.split("---", 2)` on a well-formed frontmatter document whose
part between the first two delimiters is occurrence-free (even with two
more dashes appended). -/
theorem pySplit2_delim (a b : List Char)
    (ha : splitFirst "---".data (a ++ ['-', '-']) = none) :
    pySplit2 "---" ⟨"---".data ++ (a ++ ("---".data ++ b))⟩ = ["", ⟨a⟩, ⟨b⟩] := by
  have h1 : splitFirst ("---" : String).data
      ((⟨"---".data ++ (a ++ ("---".data ++ b))⟩ : String)).data
      = some ([], a ++ ("---".data ++ b)) := by
    rw [show ((⟨"---".data ++ (a ++ ("---".data ++ b))⟩ : String)).data
        = "---".data ++ (a ++ ("---".data ++ b)) from rfl]
    exact splitFirst_self _ _ (by decide)
  have h2 : splitFirst ("---" : String).data (a ++ ("---".data ++ b)) = some (a, b) := by
    rw [show (a ++ ("---".data ++ b) : List Char) = a ++ "---".data ++ b from by simp]
    exact splitFirst_append _ a b (by decide)
      (by rw [show ("---".data : List Char).dropLast = ['-', '-'] from rfl]; exact ha)
  rw [pySplit2_eq "---" _ [] (a ++ ("---".data ++ b)) a b h1 h2]

/-- `parseStats` reduced to the frontmatter line scan once the
three-way split is known. -/
theorem parseStats_split (s : String) (hs : pyStartsWith s "---" = true)
    (x y z : String) (hsp : pySplit2 "---" s = [x, y, z]) :
    Directive.parseStats s
      = (pySplitChar '\n' y).foldl Directive.statLine ("unknown", "unknown", []) := by
  simp only [Directive.parseStats]
  rw [if_pos hs, hsp]

theorem data_mk (l : List Char) : (String.mk l).data = l := rfl

theorem splitCh_nl_cons (rest : List Char) :
    splitCh '\n' ('\n' :: rest) = [] :: splitCh '\n' rest := rfl

/-- The header text written by the directive organizer is recovered
verbatim by the line-prefix scan of `report_statistics`, for clean field
values: domain, stage and date non-empty, strip-fixed, free of newlines
and of the `---` delimiter; tag-list elements free of JSON escapes; the
serialised tag array free of `---`. -/
theorem parseStats_header (Dm Sm today content : String) (TL : List String)
    (hDne : Dm ≠ "") (hDL : stripLCh Dm.data = Dm.data) (hDR : stripRCh Dm.data = Dm.data)
    (hD3 : splitFirst "---".data Dm.data = none) (hDnl : ('\n' : Char) ∉ Dm.data)
    (hSne : Sm ≠ "") (hSL : stripLCh Sm.data = Sm.data) (hSR : stripRCh Sm.data = Sm.data)
    (hS3 : splitFirst "---".data Sm.data = none) (hSnl : ('\n' : Char) ∉ Sm.data)
    (hYne : today ≠ "") (hYL : stripLCh today.data = today.data)
    (hYR : stripRCh today.data = today.data)
    (hY3 : splitFirst "---".data today.data = none) (hYnl : ('\n' : Char) ∉ today.data)
    (htl : ∀ t ∈ TL, ∀ c ∈ t.data,
      (c == '"' || c == '\\' || c == '\n' || c == '\t' || c == '\r') = false)
    (hT3 : splitFirst "---".data (jsonDumps TL).data = none) :
    Directive.parseStats
      ("---\npatterndomain: " ++ Dm ++ "\nmaturationstage: " ++ Sm ++
        "\npatterntags: " ++ jsonDumps TL ++
        "\nvalidationstatus: singleobservation" ++
        "\ninstructionalreadiness: internalreference" ++
        "\ntemporal_context:\n  experience_date: ''" ++
        "\n  analysis_date: " ++ today ++
        "\nprovenance: personaldocumentation" ++
        "\nsource: notebooklm" ++
        "\nimport_date: " ++ today ++
        "\n---\n\n" ++ content)
      = (Dm, Sm, TL) := by
  have hTnl : ('\n' : Char) ∉ (jsonDumps TL).data := jsonDumps_no_nl TL htl
  have hA2 : splitFirst "---".data (headerFM Dm Sm today TL ++ ['-', '-']) = none := by
    rw [show (headerFM Dm Sm today TL ++ ['-', '-'] : List Char)
        = '\n' :: ("patterndomain: ".data ++ (Dm.data ++ ('\n' :: ("maturationstage: ".data ++ (Sm.data ++ ('\n' :: ("patterntags: ".data ++ ((jsonDumps TL).data ++ ('\n' :: ("validationstatus: singleobservation".data ++ ('\n' :: ("instructionalreadiness: internalreference".data ++ ('\n' :: ("temporal_context:".data ++ ('\n' :: ("  experience_date: ''".data ++ ('\n' :: ("  analysis_date: ".data ++ (today.data ++ ('\n' :: ("provenance: personaldocumentation".data ++ ('\n' :: ("source: notebooklm".data ++ ('\n' :: ("import_date: ".data ++ (today.data ++ ('\n' :: (['-', '-'] : List Char))))))))))))))))))))))))))))
        from by simp [headerFM, List.append_assoc]]
    refine splitFirst_cons_of _ _ _ rfl ?_
    refine noDash3_seg "patterndomain: ".data Dm.data _ (by decide) (by decide) hD3 ?_
    refine noDash3_seg "maturationstage: ".data Sm.data _ (by decide) (by decide) hS3 ?_
    refine noDash3_seg "patterntags: ".data (jsonDumps TL).data _ (by decide) (by decide)
      hT3 ?_
    refine noDash3_seg0 "validationstatus: singleobservation".data _ (by decide)
      (by decide) ?_
    refine noDash3_seg0 "instructionalreadiness: internalreference".data _ (by decide)
      (by decide) ?_
    refine noDash3_seg0 "temporal_context:".data _ (by decide) (by decide) ?_
    refine noDash3_seg0 "  experience_date: ''".data _ (by decide) (by decide) ?_
    refine noDash3_seg "  analysis_date: ".data today.data _ (by decide) (by decide) hY3 ?_
    refine noDash3_seg0 "provenance: personaldocumentation".data _ (by decide) (by decide) ?_
    refine noDash3_seg0 "source: notebooklm".data _ (by decide) (by decide) ?_
    exact noDash3_seg "import_date: ".data today.data ['-', '-'] (by decide) (by decide)
      hY3 (by decide)
  have hsplit2 := pySplit2_delim (headerFM Dm Sm today TL)
    ("\n\n".data ++ content.data) hA2
  have hstart := pyStartsWith_mk_append "---"
    (headerFM Dm Sm today TL ++ ("---".data ++ ("\n\n".data ++ content.data)))
  have hstr : ("---\npatterndomain: " ++ Dm ++ "\nmaturationstage: " ++ Sm ++
        "\npatterntags: " ++ jsonDumps TL ++
        "\nvalidationstatus: singleobservation" ++
        "\ninstructionalreadiness: internalreference" ++
        "\ntemporal_context:\n  experience_date: ''" ++
        "\n  analysis_date: " ++ today ++
        "\nprovenance: personaldocumentation" ++
        "\nsource: notebooklm" ++
        "\nimport_date: " ++ today ++
        "\n---\n\n" ++ content)
      = ⟨"---".data ++
          (headerFM Dm Sm today TL ++ ("---".data ++ ("\n\n".data ++ content.data)))⟩ := by
    apply strExt
    rw [data_mk, headerFM]
    simp [String.data_append, List.append_assoc]
  have hm2 : ('\n' : Char) ∉ "patterndomain: ".data ++ Dm.data :=
    not_mem_append_char (by decide) hDnl
  have hm3 : ('\n' : Char) ∉ "maturationstage: ".data ++ Sm.data :=
    not_mem_append_char (by decide) hSnl
  have hm4 : ('\n' : Char) ∉ "patterntags: ".data ++ (jsonDumps TL).data :=
    not_mem_append_char (by decide) hTnl
  have hm9 : ('\n' : Char) ∉ "  analysis_date: ".data ++ today.data :=
    not_mem_append_char (by decide) hYnl
  have hm12 : ('\n' : Char) ∉ "import_date: ".data ++ today.data :=
    not_mem_append_char (by decide) hYnl
  have hlines : pySplitChar '\n' ⟨headerFM Dm Sm today TL⟩
      = ["", ⟨"patterndomain: ".data ++ Dm.data⟩, ⟨"maturationstage: ".data ++ Sm.data⟩,
         ⟨"patterntags: ".data ++ (jsonDumps TL).data⟩,
         ⟨"validationstatus: singleobservation".data⟩,
         ⟨"instructionalreadiness: internalreference".data⟩,
         ⟨"temporal_context:".data⟩, ⟨"  experience_date: ''".data⟩,
         ⟨"  analysis_date: ".data ++ today.data⟩,
         ⟨"provenance: personaldocumentation".data⟩, ⟨"source: notebooklm".data⟩,
         ⟨"import_date: ".data ++ today.data⟩, ""] := by
    rw [pySplitChar, data_mk, headerFM, splitCh_nl_cons,
      splitCh_append_cons '\n' ("patterndomain: ".data ++ Dm.data) _ hm2,
      splitCh_append_cons '\n' ("maturationstage: ".data ++ Sm.data) _ hm3,
      splitCh_append_cons '\n' ("patterntags: ".data ++ (jsonDumps TL).data) _ hm4,
      splitCh_append_cons '\n' "validationstatus: singleobservation".data _ (by decide),
      splitCh_append_cons '\n' "instructionalreadiness: internalreference".data _
        (by decide),
      splitCh_append_cons '\n' "temporal_context:".data _ (by decide),
      splitCh_append_cons '\n' "  experience_date: ''".data _ (by decide),
      splitCh_append_cons '\n' ("  analysis_date: ".data ++ today.data) _ hm9,
      splitCh_append_cons '\n' "provenance: personaldocumentation".data _ (by decide),
      splitCh_append_cons '\n' "source: notebooklm".data _ (by decide),
      splitCh_append_cons '\n' ("import_date: ".data ++ today.data) _ hm12]
    rfl
  rw [hstr, parseStats_split _ hstart _ _ _ hsplit2, hlines]
  simp only [List.foldl_cons, List.foldl_nil]
  rw [statLine_domain _ Dm hDL hDR hDne, statLine_stage _ Sm hSL hSR hSne,
    statLine_tags _ TL (jsonLoads_dumps TL htl),
    statLine_analysis _ today hYL hYR hYne, statLine_import _ today hYL hYR hYne]
  rfl

/-- Claim C9 counterexample: a record whose domain contains `---` is
archived by the directive Organizer (the step reports a move), yet the
line-prefix scan of `report_statistics` applied to the very file it
wrote recovers domain `"x"` instead of the written `"x---y"`: the
unrestricted round-trip claim fails. -/
theorem claim_C9_counterexample :
    (Directive.processRow "2026-10-12"
        [("notebooklm-import-raw/n.md", "b")]
        ⟨"n.md", "n.md", "x---y", "humint,osint", "Formalized Framework", ""⟩).2
      = Directive.DLog.moved "n.md"
          (Directive.destPath
            ⟨"n.md", "n.md", "x---y", "humint,osint", "Formalized Framework", ""⟩)
    ∧ Directive.parseStats
        (Directive.fileContent
          ⟨"n.md", "n.md", "x---y", "humint,osint", "Formalized Framework", ""⟩
          "2026-10-12" "b")
      = ("x", "unknown", [])
    ∧ ("x" : String) ≠ "x---y" := by
  refine ⟨rfl, ?_, by decide⟩
  rfl

/-- Claim C9 (amended): the header-writer/report-parser round trip holds
for the directive variant on records with clean derived fields.  For a
record the Organizer archives (non-empty domain, source present) whose
normalised domain, stripped stage and import date are non-empty,
strip-fixed, and free of newlines and of the `---` delimiter, whose tag
field is not already bracketed, whose comma-split tags contain no JSON
escape characters, and whose serialised tag array is free of `---`: the
Organizer writes `fileContent` at the destination, and the line-prefix
scan of `report_statistics` recovers exactly the written
`patterndomain`, `maturationstage`, and JSON-decoded `patterntags`.
Without the cleanliness restrictions the claim fails
(`claim_C9_counterexample`). -/
theorem claim_C9 (today : String) (fs : FS) (row : Directive.DRow) (content : String)
    (hdom : row.pattern_domain ≠ "")
    (hsrc : fs.read (Directive.srcPath row) = some content)
    (hbr : pyStartsWith row.pattern_tags "[" = false)
    (hDne : Directive.normDomain row.pattern_domain ≠ "")
    (hDL : stripLCh (Directive.normDomain row.pattern_domain).data
      = (Directive.normDomain row.pattern_domain).data)
    (hDR : stripRCh (Directive.normDomain row.pattern_domain).data
      = (Directive.normDomain row.pattern_domain).data)
    (hD3 : splitFirst "---".data (Directive.normDomain row.pattern_domain).data = none)
    (hDnl : ('\n' : Char) ∉ (Directive.normDomain row.pattern_domain).data)
    (hSne : pyStrip row.maturation_stage ≠ "")
    (hSL : stripLCh (pyStrip row.maturation_stage).data
      = (pyStrip row.maturation_stage).data)
    (hSR : stripRCh (pyStrip row.maturation_stage).data
      = (pyStrip row.maturation_stage).data)
    (hS3 : splitFirst "---".data (pyStrip row.maturation_stage).data = none)
    (hSnl : ('\n' : Char) ∉ (pyStrip row.maturation_stage).data)
    (hYne : today ≠ "") (hYL : stripLCh today.data = today.data)
    (hYR : stripRCh today.data = today.data)
    (hY3 : splitFirst "---".data today.data = none)
    (hYnl : ('\n' : Char) ∉ today.data)
    (htl : ∀ t ∈ splitStripList ',' row.pattern_tags, ∀ c ∈ t.data,
      (c == '"' || c == '\\' || c == '\n' || c == '\t' || c == '\r') = false)
    (hT3 : splitFirst "---".data
      (jsonDumps (splitStripList ',' row.pattern_tags)).data = none) :
    Directive.processRow today fs row
      = (fs.write (Directive.destPath row) (Directive.fileContent row today content),
         Directive.DLog.moved row.filename (Directive.destPath row))
    ∧ Directive.parseStats (Directive.fileContent row today content)
      = (Directive.normDomain row.pattern_domain, pyStrip row.maturation_stage,
         splitStripList ',' row.pattern_tags) := by
  refine ⟨Directive.processRow_writes today fs row content hdom hsrc, ?_⟩
  rw [Directive.fileContent, renderTags_dumps row.pattern_tags hbr]
  exact parseStats_header (Directive.normDomain row.pattern_domain)
    (pyStrip row.maturation_stage) today content (splitStripList ',' row.pattern_tags)
    hDne hDL hDR hD3 hDnl hSne hSL hSR hS3 hSnl hYne hYL hYR hY3 hYnl htl hT3

/-- Witness for C9 at a concrete clean record: the move is performed and
the scan reads back domain, stage and decoded tags as written. -/
theorem claim_C9_witness :
    Directive.processRow "2026-10-12"
        [("notebooklm-import-raw/note.md", "hello")]
        ⟨"note.md", "note.md", "Tradecraft", "humint,osint", "Formalized Framework", ""⟩
      = ([("archive/tradecraft/formalized_frameworks/note.md",
           Directive.fileContent
             ⟨"note.md", "note.md", "Tradecraft", "humint,osint",
              "Formalized Framework", ""⟩ "2026-10-12" "hello"),
          ("notebooklm-import-raw/note.md", "hello")],
         Directive.DLog.moved "note.md" "archive/tradecraft/formalized_frameworks/note.md")
    ∧ Directive.parseStats
        (Directive.fileContent
          ⟨"note.md", "note.md", "Tradecraft", "humint,osint",
           "Formalized Framework", ""⟩ "2026-10-12" "hello")
      = ("tradecraft", "Formalized Framework", ["humint", "osint"]) := by
  have h := claim_C9 "2026-10-12" [("notebooklm-import-raw/note.md", "hello")]
    ⟨"note.md", "note.md", "Tradecraft", "humint,osint", "Formalized Framework", ""⟩
    "hello" (by decide) rfl (by decide) (by decide) (by decide) (by decide) (by decide)
    (by decide) (by decide) (by decide) (by decide) (by decide) (by decide) (by decide)
    (by decide) (by decide) (by decide) (by decide) (by decide) (by decide)
  refine ⟨?_, ?_⟩
  · rw [h.1]
    rfl
  · rw [h.2]
    rfl

end ArchiveSpec
